import Mathlib

/-!
Verification development for the LifeOS-Core repository.

The development shallowly embeds the two core subsystems:

* the `EventManager` event store (`src/lib/eventManager.js`): schema
  validation, create / get / list / update over a single `events` table,
  with `metadata`, `linked_uris`, `tags` and `location` persisted as
  JSON-serialized text columns;
* the plugin registry / scheduler (`src/server/routes/plugins.js`):
  descriptor files on disk, enable / disable / config-update handlers,
  cron-job registration (`startScheduledJob` / `stopScheduledJob`),
  startup reconciliation, plugin execution and `lastRun` bookkeeping.

The SQLite database is modelled as a list of rows, the file system as a
list of plugin directories, and the host JSON (de)serializer as an
executable printer / parser pair over a `Json` value type, with a proved
round-trip theorem.
-/

set_option maxRecDepth 8000

namespace LifeOS

/-- JSON-compatible values, as produced by parsing a JSON document:
`null`, booleans, (integer) numbers, strings, arrays and objects.
Object fields keep their textual order, as JavaScript objects do. -/
inductive Json where
  | null : Json
  | bool (b : Bool) : Json
  | num (i : Int) : Json
  | str (s : String) : Json
  | arr (xs : List Json) : Json
  | obj (kvs : List (String × Json)) : Json
deriving Repr, BEq

/-- JavaScript truthiness of a JSON value: `null`, `false`, `0` and `""`
are falsy, everything else truthy. -/
def jsTruthy : Json → Bool
  | .null => false
  | .bool b => b
  | .num i => i != 0
  | .str s => s ≠ ""
  | .arr _ => true
  | .obj _ => true

/-- Truthiness of a possibly-absent value (`undefined` is falsy). -/
def jsTruthyOpt : Option Json → Bool
  | none => false
  | some v => jsTruthy v

/-- The opening-brace character of a JSON object. -/
def lbr : Char := Char.ofNat 123

/-- The closing-brace character of a JSON object. -/
def rbr : Char := Char.ofNat 125

/-- Is `c` a decimal digit character? -/
def isDigitCh (c : Char) : Bool := 48 ≤ c.toNat && c.toNat ≤ 57

/-- The numeric value of a digit character. -/
def digVal (c : Char) : Nat := c.toNat - 48

/-- The character for a single decimal digit. -/
def digCh : Nat → Char
  | 0 => '0' | 1 => '1' | 2 => '2' | 3 => '3' | 4 => '4'
  | 5 => '5' | 6 => '6' | 7 => '7' | 8 => '8' | _ => '9'

/-- Decimal digits of `n`, least significant first (`[]` for `0`). -/
def natDigsRev (n : Nat) : List Nat :=
  if h : n = 0 then [] else n % 10 :: natDigsRev (n / 10)
termination_by n
decreasing_by exact Nat.div_lt_self (Nat.pos_of_ne_zero h) (by decide)

/-- Decimal representation of a natural number as characters. -/
def natChars (n : Nat) : List Char :=
  if n = 0 then ['0'] else ((natDigsRev n).map digCh).reverse

/-- Decimal representation of an integer as characters. -/
def intChars (i : Int) : List Char :=
  if i < 0 then '-' :: natChars i.natAbs else natChars i.toNat

/-- JSON escape of one string character. -/
def escCh (c : Char) : List Char :=
  if c = '"' then ['\\', '"']
  else if c = '\\' then ['\\', '\\']
  else if c = '\n' then ['\\', 'n']
  else if c = '\t' then ['\\', 't']
  else if c = '\r' then ['\\', 'r']
  else [c]

/-- JSON escape of a whole string body. -/
def escStr : List Char → List Char
  | [] => []
  | c :: cs => escCh c ++ escStr cs

/-- JSON unescape of one escaped character. -/
def unescCh (c : Char) : Option Char :=
  if c = '"' then some '"'
  else if c = '\\' then some '\\'
  else if c = 'n' then some '\n'
  else if c = 't' then some '\t'
  else if c = 'r' then some '\r'
  else none

/-- The characters of the keyword `null`. -/
def nullChars : List Char := ['n', 'u', 'l', 'l']

/-- The characters of the keyword `true`. -/
def trueChars : List Char := ['t', 'r', 'u', 'e']

/-- The characters of the keyword `false`. -/
def falseChars : List Char := ['f', 'a', 'l', 's', 'e']

mutual

/-- Serialization of a JSON value to characters, modelling the host
runtime's `JSON.stringify` (no whitespace, fields in order). -/
def printJson : Json → List Char
  | .null => nullChars
  | .bool true => trueChars
  | .bool false => falseChars
  | .num i => intChars i
  | .str s => '"' :: (escStr s.toList ++ ['"'])
  | .arr xs => '[' :: (printElems xs ++ [']'])
  | .obj kvs => lbr :: (printMembers kvs ++ [rbr])

/-- Comma-separated serialization of array elements. -/
def printElems : List Json → List Char
  | [] => []
  | [v] => printJson v
  | v :: rest => printJson v ++ ',' :: printElems rest

/-- Comma-separated serialization of object members. -/
def printMembers : List (String × Json) → List Char
  | [] => []
  | [(k, v)] => '"' :: (escStr k.toList ++ '"' :: ':' :: printJson v)
  | (k, v) :: rest =>
      '"' :: (escStr k.toList ++ '"' :: ':' :: printJson v) ++ ',' :: printMembers rest

end

/-- `JSON.stringify` at the `String` level. -/
def stringifyJson (v : Json) : String := String.mk (printJson v)

/-- Parse the body of a JSON string after the opening quote; returns the
decoded characters and the input remaining after the closing quote. -/
def parseStrBody : List Char → Option (List Char × List Char)
  | [] => none
  | c :: rest =>
    if c = '"' then some ([], rest)
    else if c = '\\' then
      match rest with
      | [] => none
      | e :: rest' =>
        match unescCh e with
        | none => none
        | some u =>
          match parseStrBody rest' with
          | none => none
          | some (s, r) => some (u :: s, r)
    else
      match parseStrBody rest with
      | none => none
      | some (s, r) => some (c :: s, r)

/-- Consume a run of digit characters, accumulating their value. -/
def parseNatAux : List Char → Nat → Nat × List Char
  | [], acc => (acc, [])
  | c :: rest, acc =>
    if isDigitCh c then parseNatAux rest (10 * acc + digVal c) else (acc, c :: rest)

/-- Parse a natural number literal (at least one digit). -/
def parseNat (cs : List Char) : Option (Nat × List Char) :=
  match cs with
  | [] => none
  | c :: _ => if isDigitCh c then some (parseNatAux cs 0) else none

/-- Strip an expected keyword tail from the input. -/
def stripKw : List Char → List Char → Option (List Char)
  | [], rest => some rest
  | k :: ktl, c :: ctl => if c = k then stripKw ktl ctl else none
  | _ :: _, [] => none

/-- Map a function over the value component of a parse result. -/
def mapRes (f : α → β) : Option (α × List Char) → Option (β × List Char)
  | none => none
  | some (a, r) => some (f a, r)

/-- Turn a stripped-keyword remainder into a parse result for `v`. -/
def kwRes (v : Json) : Option (List Char) → Option (Json × List Char)
  | none => none
  | some r => some (v, r)

mutual

/-- Fuel-indexed JSON value parser, modelling the host runtime's
`JSON.parse` on the whitespace-free documents this program produces. -/
def parseValue : Nat → List Char → Option (Json × List Char)
  | 0, _ => none
  | _ + 1, [] => none
  | fuel + 1, c :: rest =>
    if isDigitCh c then mapRes (fun n : Nat => Json.num (n : Int)) (parseNat (c :: rest))
    else if c = '-' then mapRes (fun n : Nat => Json.num (-(n : Int))) (parseNat rest)
    else if c = '"' then mapRes (fun s => Json.str (String.mk s)) (parseStrBody rest)
    else if c = '[' then mapRes Json.arr (parseArrTail fuel rest)
    else if c = lbr then mapRes Json.obj (parseObjTail fuel rest)
    else if c = 'n' then kwRes Json.null (stripKw ['u', 'l', 'l'] rest)
    else if c = 't' then kwRes (Json.bool true) (stripKw ['r', 'u', 'e'] rest)
    else if c = 'f' then kwRes (Json.bool false) (stripKw ['a', 'l', 's', 'e'] rest)
    else none
termination_by structural fuel => fuel

/-- Parse the elements of an array after the opening bracket. -/
def parseArrTail : Nat → List Char → Option (List Json × List Char)
  | 0, _ => none
  | _ + 1, [] => none
  | fuel + 1, c :: rest =>
    if c = ']' then some ([], rest)
    else
      match parseValue fuel (c :: rest) with
      | none => none
      | some (v, r) => parseElemsSep fuel v r
termination_by structural fuel => fuel

/-- After one array element, parse the separator and the remaining elements. -/
def parseElemsSep : Nat → Json → List Char → Option (List Json × List Char)
  | 0, _, _ => none
  | _ + 1, _, [] => none
  | fuel + 1, v, c :: rest =>
    if c = ',' then mapRes (fun vs => v :: vs) (parseArrTail fuel rest)
    else if c = ']' then some ([v], rest)
    else none
termination_by structural fuel => fuel

/-- Parse the members of an object after the opening brace. -/
def parseObjTail : Nat → List Char → Option (List (String × Json) × List Char)
  | 0, _ => none
  | _ + 1, [] => none
  | fuel + 1, c :: rest =>
    if c = rbr then some ([], rest)
    else if c = '"' then
      match parseStrBody rest with
      | none => none
      | some (k, r) => parseMemberRest fuel (String.mk k) r
    else none
termination_by structural fuel => fuel

/-- After an object key, parse the colon and the member's value. -/
def parseMemberRest : Nat → String → List Char → Option (List (String × Json) × List Char)
  | 0, _, _ => none
  | _ + 1, _, [] => none
  | fuel + 1, k, c :: rest =>
    if c = ':' then
      match parseValue fuel rest with
      | none => none
      | some (v, r) => parseMembersSep fuel k v r
    else none
termination_by structural fuel => fuel

/-- After one object member, parse the separator and the remaining members. -/
def parseMembersSep : Nat → String → Json → List Char → Option (List (String × Json) × List Char)
  | 0, _, _, _ => none
  | _ + 1, _, _, [] => none
  | fuel + 1, k, v, c :: rest =>
    if c = ',' then mapRes (fun kvs => (k, v) :: kvs) (parseObjTail fuel rest)
    else if c = rbr then some ([(k, v)], rest)
    else none
termination_by structural fuel => fuel

end

/-- `JSON.parse` at the `String` level: the whole input must be consumed. -/
def parseJson (s : String) : Option Json :=
  match parseValue (2 * s.toList.length + 2) s.toList with
  | some (v, []) => some v
  | _ => none

/-- Value of a least-significant-first digit list. -/
def ofRevDigs : List Nat → Nat
  | [] => 0
  | d :: ds => d + 10 * ofRevDigs ds

/-- Does the input start with a digit character? -/
def digStart : List Char → Bool
  | [] => false
  | c :: _ => isDigitCh c

theorem digVal_digCh (d : Nat) (h : d < 10) : digVal (digCh d) = d := by
  interval_cases d <;> decide

theorem isDigitCh_digCh (d : Nat) : isDigitCh (digCh d) = true := by
  unfold digCh
  split <;> decide

theorem natDigsRev_lt10 : ∀ n : Nat, ∀ d ∈ natDigsRev n, d < 10 := by
  intro n
  induction n using Nat.strong_induction_on with
  | _ n ih =>
    rw [natDigsRev]
    split
    · intro d hd; simp at hd
    · rename_i h
      intro d hd
      rcases List.mem_cons.mp hd with h1 | h2
      · subst h1; omega
      · exact ih (n / 10) (Nat.div_lt_self (Nat.pos_of_ne_zero h) (by decide)) d h2

theorem ofRevDigs_natDigsRev : ∀ n : Nat, ofRevDigs (natDigsRev n) = n := by
  intro n
  induction n using Nat.strong_induction_on with
  | _ n ih =>
    rw [natDigsRev]
    split
    · rename_i h; simp [ofRevDigs, h]
    · rename_i h
      rw [ofRevDigs, ih (n / 10) (Nat.div_lt_self (Nat.pos_of_ne_zero h) (by decide))]
      omega

theorem natChars_ne_nil (n : Nat) : natChars n ≠ [] := by
  unfold natChars
  split
  · simp
  · rename_i h
    rw [natDigsRev]
    simp [h]

theorem natChars_digits (n : Nat) : ∀ c ∈ natChars n, isDigitCh c = true := by
  unfold natChars
  split
  · intro c hc; simp at hc; subst hc; decide
  · intro c hc
    rw [List.mem_reverse, List.mem_map] at hc
    obtain ⟨d, _, hd⟩ := hc
    subst hd
    exact isDigitCh_digCh d

theorem foldr_digCh (ds : List Nat) (h : ∀ d ∈ ds, d < 10) :
    List.foldr (fun c a => 10 * a + digVal c) 0 (ds.map digCh) = ofRevDigs ds := by
  induction ds with
  | nil => simp [ofRevDigs]
  | cons d tl ih =>
    simp only [List.map_cons, List.foldr_cons, ofRevDigs]
    rw [ih (fun x hx => h x (List.mem_cons_of_mem _ hx)),
      digVal_digCh d (h d (List.mem_cons_self _ _))]
    omega

theorem foldl_natChars (n : Nat) :
    List.foldl (fun a c => 10 * a + digVal c) 0 (natChars n) = n := by
  unfold natChars
  split
  · rename_i h; subst h; decide
  · rw [List.foldl_reverse]
    exact (foldr_digCh (natDigsRev n) (natDigsRev_lt10 n)).trans (ofRevDigs_natDigsRev n)

theorem parseNatAux_digits (ds rest : List Char) (acc : Nat)
    (h : ∀ c ∈ ds, isDigitCh c = true) :
    parseNatAux (ds ++ rest) acc
      = parseNatAux rest (List.foldl (fun a c => 10 * a + digVal c) acc ds) := by
  induction ds generalizing acc with
  | nil => simp
  | cons c tl ih =>
    simp only [List.cons_append, parseNatAux, List.foldl_cons]
    rw [if_pos (h c (List.mem_cons_self _ _))]
    exact ih _ (fun x hx => h x (List.mem_cons_of_mem _ hx))

theorem parseNatAux_stop (rest : List Char) (acc : Nat) (h : digStart rest = false) :
    parseNatAux rest acc = (acc, rest) := by
  cases rest with
  | nil => rfl
  | cons c tl =>
    simp only [digStart] at h
    simp [parseNatAux, h]

theorem parseNat_natChars (n : Nat) (rest : List Char) (h : digStart rest = false) :
    parseNat (natChars n ++ rest) = some (n, rest) := by
  have hd : ∀ c ∈ natChars n, isDigitCh c = true := natChars_digits n
  have haux := parseNatAux_digits (natChars n) rest 0 hd
  have hfold := foldl_natChars n
  cases hx : natChars n with
  | nil => exact absurd hx (natChars_ne_nil n)
  | cons c tl =>
    have hc : isDigitCh c = true := by
      apply hd; rw [hx]; exact List.mem_cons_self _ _
    rw [hx] at haux hfold
    simp only [parseNat, if_pos hc]
    rw [haux, hfold, parseNatAux_stop rest n h]
    simp [hc]

theorem parseStrBody_escStr (s rest : List Char) :
    parseStrBody (escStr s ++ '"' :: rest) = some (s, rest) := by
  induction s with
  | nil =>
    show parseStrBody ('"' :: rest) = some ([], rest)
    unfold parseStrBody
    simp
  | cons c tl ih =>
    have hes : escStr (c :: tl) ++ '"' :: rest = escCh c ++ (escStr tl ++ '"' :: rest) := by
      show (escCh c ++ escStr tl) ++ '"' :: rest = _
      rw [List.append_assoc]
    rw [hes]
    by_cases h1 : c = '"'
    · subst h1
      rw [show escCh '"' = ['\\', '"'] from by decide]
      unfold parseStrBody
      simp [unescCh, ih]
    · by_cases h2 : c = '\\'
      · subst h2
        rw [show escCh '\\' = ['\\', '\\'] from by decide]
        unfold parseStrBody
        simp [unescCh, ih]
      · by_cases h3 : c = '\n'
        · subst h3
          rw [show escCh '\n' = ['\\', 'n'] from by decide]
          unfold parseStrBody
          simp [unescCh, ih]
        · by_cases h4 : c = '\t'
          · subst h4
            rw [show escCh '\t' = ['\\', 't'] from by decide]
            unfold parseStrBody
            simp [unescCh, ih]
          · by_cases h5 : c = '\r'
            · subst h5
              rw [show escCh '\r' = ['\\', 'r'] from by decide]
              unfold parseStrBody
              simp [unescCh, ih]
            · rw [show escCh c = [c] from by simp [escCh, h1, h2, h3, h4, h5]]
              unfold parseStrBody
              simp [unescCh, ih, h1, h2]

mutual

/-- Parser-fuel weight of a JSON value. -/
def jweight : Json → Nat
  | .null => 1
  | .bool _ => 1
  | .num _ => 1
  | .str _ => 1
  | .arr xs => 1 + lweight xs
  | .obj kvs => 1 + mweight kvs

/-- Parser-fuel weight of an array-element list. -/
def lweight : List Json → Nat
  | [] => 1
  | v :: tl => 2 + jweight v + lweight tl

/-- Parser-fuel weight of an object-member list. -/
def mweight : List (String × Json) → Nat
  | [] => 1
  | (_, v) :: tl => 3 + jweight v + mweight tl

end

theorem jweight_pos (v : Json) : 0 < jweight v := by
  cases v <;> simp only [jweight] <;> omega

theorem lweight_pos (xs : List Json) : 0 < lweight xs := by
  cases xs <;> simp only [lweight] <;> omega

theorem mweight_pos (kvs : List (String × Json)) : 0 < mweight kvs := by
  cases kvs with
  | nil => simp only [mweight]; omega
  | cons kv tl => obtain ⟨k, v⟩ := kv; simp only [mweight]; omega

theorem stringMk_toList (s : String) : String.mk s.toList = s := by
  cases s; rfl

theorem printJson_ne_nil (v : Json) : printJson v ≠ [] := by
  cases v with
  | null => simp [printJson, nullChars]
  | bool b => cases b <;> simp [printJson, trueChars, falseChars]
  | num i =>
    simp only [printJson]
    unfold intChars
    split
    · simp
    · exact natChars_ne_nil _
  | str s => simp [printJson]
  | arr xs => simp [printJson]
  | obj kvs => simp [printJson]

theorem printJson_head_ok (v : Json) (c : Char) (cs : List Char)
    (h : printJson v = c :: cs) : c ≠ ']' ∧ c ≠ rbr := by
  cases v with
  | null =>
    simp only [printJson] at h
    obtain ⟨h1, -⟩ := List.cons.injEq .. ▸ h
    exact h1 ▸ ⟨by decide, by decide⟩
  | bool b =>
    cases b <;> simp only [printJson] at h <;>
      exact (List.cons.injEq .. ▸ h).1 ▸ ⟨by decide, by decide⟩
  | num i =>
    simp only [printJson] at h
    unfold intChars at h
    split at h
    · exact (List.cons.injEq .. ▸ h).1 ▸ ⟨by decide, by decide⟩
    · have hdig : isDigitCh c = true := by
        apply natChars_digits
        rw [h]
        exact List.mem_cons_self _ _
      constructor
      · intro e; subst e; exact absurd hdig (by decide)
      · intro e; subst e; exact absurd hdig (by decide)
  | str s =>
    simp only [printJson] at h
    exact (List.cons.injEq .. ▸ h).1 ▸ ⟨by decide, by decide⟩
  | arr xs =>
    simp only [printJson] at h
    exact (List.cons.injEq .. ▸ h).1 ▸ ⟨by decide, by decide⟩
  | obj kvs =>
    simp only [printJson] at h
    exact (List.cons.injEq .. ▸ h).1 ▸ ⟨by decide, by decide⟩

theorem parseValue_kw_null (fuel : Nat) (rest : List Char) :
    parseValue (fuel + 1) ('n' :: 'u' :: 'l' :: 'l' :: rest) = some (.null, rest) := by
  rw [parseValue.eq_def]
  simp [isDigitCh, lbr, stripKw, kwRes]

theorem parseValue_kw_true (fuel : Nat) (rest : List Char) :
    parseValue (fuel + 1) ('t' :: 'r' :: 'u' :: 'e' :: rest) = some (.bool true, rest) := by
  rw [parseValue.eq_def]
  simp [isDigitCh, lbr, stripKw, kwRes]

theorem parseValue_kw_false (fuel : Nat) (rest : List Char) :
    parseValue (fuel + 1) ('f' :: 'a' :: 'l' :: 's' :: 'e' :: rest) = some (.bool false, rest) := by
  rw [parseValue.eq_def]
  simp [isDigitCh, lbr, stripKw, kwRes]

theorem parseValue_quote (fuel : Nat) (rest s r : List Char)
    (h : parseStrBody rest = some (s, r)) :
    parseValue (fuel + 1) ('"' :: rest) = some (.str (String.mk s), r) := by
  rw [parseValue.eq_def]
  simp [isDigitCh, lbr, h, mapRes]

theorem parseValue_lbracket (fuel : Nat) (rest r : List Char) (xs : List Json)
    (h : parseArrTail fuel rest = some (xs, r)) :
    parseValue (fuel + 1) ('[' :: rest) = some (.arr xs, r) := by
  rw [parseValue.eq_def]
  simp [isDigitCh, lbr, h, mapRes]

theorem parseValue_lbrace (fuel : Nat) (rest r : List Char) (kvs : List (String × Json))
    (h : parseObjTail fuel rest = some (kvs, r)) :
    parseValue (fuel + 1) (lbr :: rest) = some (.obj kvs, r) := by
  rw [parseValue.eq_def]
  simp [isDigitCh, lbr, h, mapRes]

theorem parseValue_digit (fuel : Nat) (c : Char) (rest r : List Char) (n : Nat)
    (hc : isDigitCh c = true) (h : parseNat (c :: rest) = some (n, r)) :
    parseValue (fuel + 1) (c :: rest) = some (.num (n : Int), r) := by
  rw [parseValue.eq_def]
  simp [hc, h, mapRes]

theorem parseValue_minus (fuel : Nat) (rest r : List Char) (n : Nat)
    (h : parseNat rest = some (n, r)) :
    parseValue (fuel + 1) ('-' :: rest) = some (.num (-(n : Int)), r) := by
  rw [parseValue.eq_def]
  simp [isDigitCh, h, mapRes]

theorem parseArrTail_close (fuel : Nat) (rest : List Char) :
    parseArrTail (fuel + 1) (']' :: rest) = some ([], rest) := by
  rw [parseArrTail.eq_def]
  simp

theorem parseArrTail_step (fuel : Nat) (c : Char) (cs r : List Char) (v : Json)
    (hc : c ≠ ']') (hv : parseValue fuel (c :: cs) = some (v, r)) :
    parseArrTail (fuel + 1) (c :: cs) = parseElemsSep fuel v r := by
  rw [parseArrTail.eq_def]
  simp [hc, hv]

theorem parseElemsSep_comma (fuel : Nat) (rest r : List Char) (v : Json) (vs : List Json)
    (h : parseArrTail fuel rest = some (vs, r)) :
    parseElemsSep (fuel + 1) v (',' :: rest) = some (v :: vs, r) := by
  rw [parseElemsSep.eq_def]
  simp [h, mapRes]

theorem parseElemsSep_close (fuel : Nat) (rest : List Char) (v : Json) :
    parseElemsSep (fuel + 1) v (']' :: rest) = some ([v], rest) := by
  rw [parseElemsSep.eq_def]
  simp

theorem parseObjTail_close (fuel : Nat) (rest : List Char) :
    parseObjTail (fuel + 1) (rbr :: rest) = some ([], rest) := by
  rw [parseObjTail.eq_def]
  simp

theorem parseObjTail_key (fuel : Nat) (rest r k : List Char)
    (hk : parseStrBody rest = some (k, r)) :
    parseObjTail (fuel + 1) ('"' :: rest) = parseMemberRest fuel (String.mk k) r := by
  rw [parseObjTail.eq_def]
  simp [rbr, lbr, hk]

theorem parseMemberRest_colon (fuel : Nat) (rest r : List Char) (k : String) (v : Json)
    (hv : parseValue fuel rest = some (v, r)) :
    parseMemberRest (fuel + 1) k (':' :: rest) = parseMembersSep fuel k v r := by
  rw [parseMemberRest.eq_def]
  simp [hv]

theorem parseMembersSep_comma (fuel : Nat) (rest r : List Char) (k : String) (v : Json)
    (kvs : List (String × Json)) (h : parseObjTail fuel rest = some (kvs, r)) :
    parseMembersSep (fuel + 1) k v (',' :: rest) = some ((k, v) :: kvs, r) := by
  rw [parseMembersSep.eq_def]
  simp [h, mapRes]

theorem parseMembersSep_close (fuel : Nat) (rest : List Char) (k : String) (v : Json) :
    parseMembersSep (fuel + 1) k v (rbr :: rest) = some ([(k, v)], rest) := by
  rw [parseMembersSep.eq_def]
  simp [rbr]

/-- The characters a nonempty array prints after its first element. -/
def elemsTail : List Json → List Char
  | [] => []
  | tl => ',' :: printElems tl

/-- The characters a nonempty object prints after its first member. -/
def memTail : List (String × Json) → List Char
  | [] => []
  | tl => ',' :: printMembers tl

theorem printElems_cons (v : Json) (tl : List Json) :
    printElems (v :: tl) = printJson v ++ elemsTail tl := by
  cases tl <;> simp [printElems, elemsTail]

theorem printMembers_append (k : String) (v : Json) (tl : List (String × Json))
    (rest : List Char) :
    printMembers ((k, v) :: tl) ++ rbr :: rest
      = '"' :: (escStr k.toList ++ '"' :: ':' :: (printJson v ++ (memTail tl ++ rbr :: rest))) := by
  cases tl <;> simp [printMembers, memTail, List.append_assoc]

theorem digStart_elemsTail (tl : List Json) (rest : List Char) :
    digStart (elemsTail tl ++ ']' :: rest) = false := by
  cases tl <;> rfl

theorem digStart_memTail (tl : List (String × Json)) (rest : List Char) :
    digStart (memTail tl ++ rbr :: rest) = false := by
  cases tl <;> rfl

theorem parsePrint_all : ∀ fuel : Nat,
    (∀ v rest, jweight v ≤ fuel → digStart rest = false →
      parseValue fuel (printJson v ++ rest) = some (v, rest)) ∧
    (∀ xs rest, lweight xs ≤ fuel →
      parseArrTail fuel (printElems xs ++ ']' :: rest) = some (xs, rest)) ∧
    (∀ v tl rest, 1 + lweight tl ≤ fuel →
      parseElemsSep fuel v (elemsTail tl ++ ']' :: rest) = some (v :: tl, rest)) ∧
    (∀ kvs rest, mweight kvs ≤ fuel →
      parseObjTail fuel (printMembers kvs ++ rbr :: rest) = some (kvs, rest)) ∧
    (∀ k v tl rest, 2 + jweight v + mweight tl ≤ fuel →
      parseMemberRest fuel k (':' :: (printJson v ++ (memTail tl ++ rbr :: rest)))
        = some ((k, v) :: tl, rest)) ∧
    (∀ k v tl rest, 1 + mweight tl ≤ fuel →
      parseMembersSep fuel k v (memTail tl ++ rbr :: rest) = some ((k, v) :: tl, rest)) := by
  intro fuel
  induction fuel with
  | zero =>
    refine ⟨?_, ?_, ?_, ?_, ?_, ?_⟩
    · intro v _ hw _; have := jweight_pos v; omega
    · intro xs _ hw; have := lweight_pos xs; omega
    · intro v tl _ hw; omega
    · intro kvs _ hw; have := mweight_pos kvs; omega
    · intro k v tl _ hw; omega
    · intro k v tl _ hw; omega
  | succ fuel ih =>
    obtain ⟨ihA, ihB, ihB2, ihC, ihC2, ihC3⟩ := ih
    refine ⟨?_, ?_, ?_, ?_, ?_, ?_⟩
    · intro v rest hw hr
      cases v with
      | null =>
        rw [show printJson Json.null = ['n', 'u', 'l', 'l'] from by
          simp [printJson, nullChars]]
        simp only [List.cons_append, List.nil_append]
        exact parseValue_kw_null fuel rest
      | bool b =>
        cases b
        · rw [show printJson (Json.bool false) = ['f', 'a', 'l', 's', 'e'] from by
            simp [printJson, falseChars]]
          simp only [List.cons_append, List.nil_append]
          exact parseValue_kw_false fuel rest
        · rw [show printJson (Json.bool true) = ['t', 'r', 'u', 'e'] from by
            simp [printJson, trueChars]]
          simp only [List.cons_append, List.nil_append]
          exact parseValue_kw_true fuel rest
      | num i =>
        rw [show printJson (Json.num i) = intChars i from by simp [printJson]]
        by_cases hi : i < 0
        · rw [show intChars i = '-' :: natChars i.natAbs from by simp [intChars, hi]]
          simp only [List.cons_append]
          rw [parseValue_minus fuel _ rest i.natAbs (parseNat_natChars i.natAbs rest hr)]
          have h2 : -((i.natAbs : Nat) : Int) = i := by omega
          rw [h2]
        · rw [show intChars i = natChars i.toNat from by simp [intChars, hi]]
          have hpn := parseNat_natChars i.toNat rest hr
          cases hx : natChars i.toNat with
          | nil => exact absurd hx (natChars_ne_nil _)
          | cons c tl =>
            have hc : isDigitCh c = true := by
              apply natChars_digits
              rw [hx]
              exact List.mem_cons_self _ _
            rw [hx] at hpn
            simp only [List.cons_append] at hpn ⊢
            rw [parseValue_digit fuel c _ rest i.toNat hc hpn]
            have h2 : ((i.toNat : Nat) : Int) = i := Int.toNat_of_nonneg (by omega)
            rw [h2]
      | str s =>
        rw [show printJson (Json.str s) = '"' :: (escStr s.toList ++ ['"']) from by
          simp [printJson]]
        rw [show ('"' :: (escStr s.toList ++ ['"'])) ++ rest
            = '"' :: (escStr s.toList ++ '"' :: rest) from by simp]
        rw [parseValue_quote fuel _ s.toList rest (parseStrBody_escStr s.toList rest),
          stringMk_toList]
      | arr xs =>
        rw [show printJson (Json.arr xs) = '[' :: (printElems xs ++ [']']) from by
          simp [printJson]]
        rw [show ('[' :: (printElems xs ++ [']'])) ++ rest
            = '[' :: (printElems xs ++ ']' :: rest) from by simp]
        have hb : lweight xs ≤ fuel := by simp only [jweight] at hw; omega
        exact parseValue_lbracket fuel _ rest xs (ihB xs rest hb)
      | obj kvs =>
        rw [show printJson (Json.obj kvs) = lbr :: (printMembers kvs ++ [rbr]) from by
          simp [printJson]]
        rw [show (lbr :: (printMembers kvs ++ [rbr])) ++ rest
            = lbr :: (printMembers kvs ++ rbr :: rest) from by simp]
        have hb : mweight kvs ≤ fuel := by simp only [jweight] at hw; omega
        exact parseValue_lbrace fuel _ rest kvs (ihC kvs rest hb)
    · intro xs rest hw
      cases xs with
      | nil =>
        rw [show printElems ([] : List Json) = [] from by simp [printElems]]
        simp only [List.nil_append]
        exact parseArrTail_close fuel rest
      | cons v tl =>
        rw [printElems_cons v tl, List.append_assoc]
        cases hpv : printJson v with
        | nil => exact absurd hpv (printJson_ne_nil v)
        | cons c cs =>
          have hcne := (printJson_head_ok v c cs hpv).1
          have hv : parseValue fuel (printJson v ++ (elemsTail tl ++ ']' :: rest))
              = some (v, elemsTail tl ++ ']' :: rest) := by
            apply ihA
            · simp only [lweight] at hw; omega
            · exact digStart_elemsTail tl rest
          rw [hpv] at hv
          simp only [List.cons_append] at hv ⊢
          rw [parseArrTail_step fuel c _ _ v hcne hv]
          apply ihB2
          simp only [lweight] at hw; omega
    · intro v tl rest hw
      cases tl with
      | nil =>
        rw [show elemsTail ([] : List Json) = [] from rfl]
        simp only [List.nil_append]
        exact parseElemsSep_close fuel rest v
      | cons w tl2 =>
        rw [show elemsTail (w :: tl2) = ',' :: printElems (w :: tl2) from rfl]
        simp only [List.cons_append]
        apply parseElemsSep_comma
        apply ihB
        omega
    · intro kvs rest hw
      cases kvs with
      | nil =>
        rw [show printMembers [] = ([] : List Char) from by simp [printMembers]]
        simp only [List.nil_append]
        exact parseObjTail_close fuel rest
      | cons kv tl =>
        obtain ⟨k, v⟩ := kv
        rw [printMembers_append k v tl rest]
        rw [parseObjTail_key fuel _ _ k.toList
          (parseStrBody_escStr k.toList (':' :: (printJson v ++ (memTail tl ++ rbr :: rest)))),
          stringMk_toList]
        exact ihC2 k v tl rest (by simp only [mweight] at hw; omega)
    · intro k v tl rest hw
      have hv : parseValue fuel (printJson v ++ (memTail tl ++ rbr :: rest))
          = some (v, memTail tl ++ rbr :: rest) := by
        apply ihA
        · omega
        · exact digStart_memTail tl rest
      rw [parseMemberRest_colon fuel _ _ k v hv]
      apply ihC3
      have := jweight_pos v
      omega
    · intro k v tl rest hw
      cases tl with
      | nil =>
        rw [show memTail ([] : List (String × Json)) = [] from rfl]
        simp only [List.nil_append]
        exact parseMembersSep_close fuel rest k v
      | cons kv2 tl2 =>
        rw [show memTail (kv2 :: tl2) = ',' :: printMembers (kv2 :: tl2) from rfl]
        simp only [List.cons_append]
        apply parseMembersSep_comma
        apply ihC
        omega

theorem weight_le_length : ∀ n : Nat,
    (∀ v : Json, sizeOf v ≤ n → jweight v ≤ 2 * (printJson v).length) ∧
    (∀ xs : List Json, sizeOf xs ≤ n → lweight xs ≤ 2 * (printElems xs).length + 3) ∧
    (∀ kvs : List (String × Json), sizeOf kvs ≤ n →
      mweight kvs ≤ 2 * (printMembers kvs).length + 3) := by
  intro n
  induction n with
  | zero =>
    refine ⟨?_, ?_, ?_⟩
    · intro v h; cases v <;> simp at h
    · intro xs h; cases xs <;> simp at h
    · intro kvs h; cases kvs <;> simp at h
  | succ n ih =>
    obtain ⟨ihA, ihB, ihC⟩ := ih
    refine ⟨?_, ?_, ?_⟩
    · intro v h
      cases v with
      | null =>
        have := List.length_pos.mpr (printJson_ne_nil Json.null)
        simp only [jweight]; omega
      | bool b =>
        have := List.length_pos.mpr (printJson_ne_nil (Json.bool b))
        simp only [jweight]; omega
      | num i =>
        have := List.length_pos.mpr (printJson_ne_nil (Json.num i))
        simp only [jweight]; omega
      | str s =>
        have := List.length_pos.mpr (printJson_ne_nil (Json.str s))
        simp only [jweight]; omega
      | arr xs =>
        have hxs : lweight xs ≤ 2 * (printElems xs).length + 3 := by
          apply ihB
          simp only [Json.arr.sizeOf_spec] at h
          omega
        have hl : (printJson (Json.arr xs)).length = (printElems xs).length + 2 := by
          simp [printJson]
        simp only [jweight]
        omega
      | obj kvs =>
        have hkvs : mweight kvs ≤ 2 * (printMembers kvs).length + 3 := by
          apply ihC
          simp only [Json.obj.sizeOf_spec] at h
          omega
        have hl : (printJson (Json.obj kvs)).length = (printMembers kvs).length + 2 := by
          simp [printJson]
        simp only [jweight]
        omega
    · intro xs h
      cases xs with
      | nil => simp only [lweight]; omega
      | cons v tl =>
        have hv : jweight v ≤ 2 * (printJson v).length := by
          apply ihA
          simp only [List.cons.sizeOf_spec] at h
          omega
        cases tl with
        | nil =>
          have hl : (printElems [v]).length = (printJson v).length := by
            simp [printElems]
          simp only [lweight]
          omega
        | cons w tl2 =>
          have htl : lweight (w :: tl2) ≤ 2 * (printElems (w :: tl2)).length + 3 := by
            apply ihB
            simp only [List.cons.sizeOf_spec] at h ⊢
            omega
          have hl : (printElems (v :: w :: tl2)).length
              = (printJson v).length + 1 + (printElems (w :: tl2)).length := by
            rw [printElems_cons v (w :: tl2),
              show elemsTail (w :: tl2) = ',' :: printElems (w :: tl2) from rfl]
            simp
            omega
          rw [show lweight (v :: w :: tl2) = 2 + jweight v + lweight (w :: tl2) from rfl]
          omega
    · intro kvs h
      cases kvs with
      | nil => simp only [mweight]; omega
      | cons kv tl =>
        obtain ⟨k, v⟩ := kv
        have hv : jweight v ≤ 2 * (printJson v).length := by
          apply ihA
          simp only [List.cons.sizeOf_spec, Prod.mk.sizeOf_spec] at h
          omega
        cases tl with
        | nil =>
          have hl : (printMembers [(k, v)]).length
              = (escStr k.toList).length + (printJson v).length + 3 := by
            simp [printMembers]
            omega
          simp only [mweight]
          omega
        | cons kv2 tl2 =>
          have htl : mweight (kv2 :: tl2) ≤ 2 * (printMembers (kv2 :: tl2)).length + 3 := by
            apply ihC
            simp only [List.cons.sizeOf_spec, Prod.mk.sizeOf_spec] at h ⊢
            omega
          have hl : (printMembers ((k, v) :: kv2 :: tl2)).length
              = (escStr k.toList).length + (printJson v).length + 4
                + (printMembers (kv2 :: tl2)).length := by
            simp [printMembers]
            omega
          rw [show mweight ((k, v) :: kv2 :: tl2) = 3 + jweight v + mweight (kv2 :: tl2) from rfl]
          omega

/-- The serialize-then-deserialize round trip: `JSON.parse` of
`JSON.stringify` recovers the original structured value. -/
theorem parseJson_stringify (v : Json) : parseJson (stringifyJson v) = some v := by
  have hb : jweight v ≤ 2 * (printJson v).length :=
    (weight_le_length (sizeOf v)).1 v (le_refl _)
  unfold parseJson stringifyJson
  have ht : (String.mk (printJson v)).toList = printJson v := rfl
  rw [ht]
  have hmain := (parsePrint_all (2 * (printJson v).length + 2)).1 v [] (by omega) rfl
  rw [List.append_nil] at hmain
  rw [hmain]

/-- Does the pattern occur at the head of the list? -/
def listStarts : List Char → List Char → Bool
  | [], _ => true
  | _ :: _, [] => false
  | a :: as, b :: bs => a = b && listStarts as bs

/-- Does `needle` occur as a contiguous substring of `hay`? This is the
semantics of SQL `LIKE` with a pattern of the shape `%needle%` when the
needle itself holds no wildcard characters. -/
def subOccurs (needle : List Char) : List Char → Bool
  | [] => listStarts needle []
  | c :: tl => listStarts needle (c :: tl) || subOccurs needle tl

/-- `LIKE '%needle%'` at the `String` level. -/
def likeSub (needle hay : String) : Bool := subOccurs needle.toList hay.toList

/-- A candidate event as received by `createEvent`: a JSON object whose
known fields may be absent. String-typed fields are kept as strings; the
compound and numeric fields are kept as raw JSON values so that the schema
check on their shape is meaningful. -/
structure EventData where
  id : Option String
  timestamp : Option String
  source : Option String
  type : Option String
  title : Option String
  metadata : Option Json
  linked_uris : Option Json
  tags : Option Json
  mood : Option Json
  location : Option Json
  duration : Option Json
  created_at : Option String
  updated_at : Option String
deriving Repr

/-- One row of the `events` table: `metadata`, `linked_uris` and `tags` are
serialized TEXT columns, `location` a nullable serialized TEXT column,
`mood` and `duration` nullable columns holding the bound values. -/
structure EventRow where
  id : String
  timestamp : String
  source : String
  type : String
  title : String
  metadata : String
  linked_uris : String
  tags : String
  mood : Option Json
  location : Option String
  duration : Option Json
  created_at : String
  updated_at : String
deriving Repr

/-- An event as returned to callers: compound fields in structured
(deserialized) form, never as raw serialized strings. -/
structure APIEvent where
  id : String
  timestamp : String
  source : String
  type : String
  title : String
  metadata : Json
  linked_uris : Json
  tags : Json
  mood : Option Json
  location : Option Json
  duration : Option Json
  created_at : String
  updated_at : String
deriving Repr

/-- Modelled from the spec: stand-in for the host `Date.parse` success
check behind the ajv `date-time` format (the format hook lives in
`eventManager.js`, but what counts as parseable is host-runtime behavior).
Abstracted as: any nonempty string parses. -/
def dateParses (s : String) : Bool := s ≠ ""

/-- Modelled from the spec: the compiled JSON-schema validator for
`lifeos-protocol/lifeevent.schema.json`; the schema file ships in the
external `lifeos-protocol` package and is not part of this repository.
Per the spec it enforces required presence of `timestamp` (a valid
date-time), `source`, `type`, `title`, and type-correctness of optional
fields: `metadata` an object, `tags` a sequence of strings, `linked_uris`
a sequence of strings, `mood` numeric. -/
def validate (e : EventData) : Bool :=
  (match e.timestamp with
   | some t => dateParses t
   | none => false)
  && e.source.isSome
  && e.type.isSome
  && e.title.isSome
  && (match e.metadata with
      | none => true
      | some (Json.obj _) => true
      | some _ => false)
  && (match e.tags with
      | none => true
      | some (Json.arr xs) => xs.all fun v => match v with | Json.str _ => true | _ => false
      | some _ => false)
  && (match e.linked_uris with
      | none => true
      | some (Json.arr xs) => xs.all fun v => match v with | Json.str _ => true | _ => false
      | some _ => false)
  && (match e.mood with
      | none => true
      | some (Json.num _) => true
      | some _ => false)

/-- JavaScript `a || b` for an optional string (absent and `""` are falsy). -/
def strOr (o : Option String) (dflt : String) : String :=
  match o with
  | some s => if s = "" then dflt else s
  | none => dflt

/-- JavaScript `a || b` for an optional JSON value. -/
def jsOr (o : Option Json) (dflt : Json) : Json :=
  match o with
  | some v => if jsTruthy v then v else dflt
  | none => dflt

/-- JavaScript `a ? JSON.stringify(a) : null` for an optional JSON value. -/
def optJsonSer (o : Option Json) : Option String :=
  match o with
  | some l => if jsTruthy l then some (stringifyJson l) else none
  | none => none

/-- `EventManager.createEvent`: validate the payload, assign `id` and
timestamps (`genId` stands for the `uuidv4()` the runtime would draw, `now`
for `new Date().toISOString()`), serialize the compound fields, INSERT the
row, and resolve with the event carrying the re-parsed fields. The store is
the list of rows of the `events` table; an INSERT that violates the primary
key or a NOT NULL constraint rejects as SQLite does. -/
def createEvent (genId now : String) (eventData : EventData) (s : List EventRow) :
    List EventRow × Except String APIEvent :=
  if validate eventData then
    match eventData.timestamp, eventData.source, eventData.type, eventData.title with
    | some ts, some src, some ty, some ti =>
      let evId := strOr eventData.id genId
      let createdAt := strOr eventData.created_at now
      let mdJson := jsOr eventData.metadata (Json.obj [])
      let luJson := jsOr eventData.linked_uris (Json.arr [])
      let tagsJson := jsOr eventData.tags (Json.arr [])
      let locText := optJsonSer eventData.location
      if s.any fun r => r.id = evId then
        (s, .error "UNIQUE constraint failed: events.id")
      else
        (s ++ [{ id := evId, timestamp := ts, source := src, type := ty, title := ti,
                 metadata := stringifyJson mdJson,
                 linked_uris := stringifyJson luJson,
                 tags := stringifyJson tagsJson,
                 mood := eventData.mood,
                 location := locText,
                 duration := eventData.duration,
                 created_at := createdAt, updated_at := now }],
         .ok { id := evId, timestamp := ts, source := src, type := ty, title := ti,
               metadata := (parseJson (stringifyJson mdJson)).getD Json.null,
               linked_uris := (parseJson (stringifyJson luJson)).getD Json.null,
               tags := (parseJson (stringifyJson tagsJson)).getD Json.null,
               mood := eventData.mood,
               location := locText.map fun l => (parseJson l).getD Json.null,
               duration := eventData.duration,
               created_at := createdAt, updated_at := now })
    | _, _, _, _ => (s, .error "NOT NULL constraint failed")
  else
    (s, .error "Invalid event: schema validation failed")

/-- Deserialize one row on a read path, as `getEvent`/`getEvents` do:
`JSON.parse` of the serialized columns (with the `|| JSON-empty` fallback
on falsy column values) and of `location` when non-null; a `JSON.parse`
failure is a thrown exception. -/
def parseRow (row : EventRow) : Except String APIEvent :=
  match parseJson (if row.metadata = "" then "\x7b\x7d" else row.metadata),
        parseJson (if row.linked_uris = "" then "[]" else row.linked_uris),
        parseJson (if row.tags = "" then "[]" else row.tags) with
  | some md, some lu, some tg =>
    match row.location with
    | none =>
      .ok { id := row.id, timestamp := row.timestamp, source := row.source,
            type := row.type, title := row.title, metadata := md,
            linked_uris := lu, tags := tg, mood := row.mood, location := none,
            duration := row.duration, created_at := row.created_at,
            updated_at := row.updated_at }
    | some lstr =>
      match parseJson lstr with
      | some l =>
        .ok { id := row.id, timestamp := row.timestamp, source := row.source,
              type := row.type, title := row.title, metadata := md,
              linked_uris := lu, tags := tg, mood := row.mood, location := some l,
              duration := row.duration, created_at := row.created_at,
              updated_at := row.updated_at }
      | none => .error "Unexpected token in JSON"
  | _, _, _ => .error "Unexpected token in JSON"

/-- `EventManager.getEvent`: `SELECT * FROM events WHERE id = ?`, resolving
`null` when no row matches, else the row with compound fields parsed. -/
def getEvent (id : String) (s : List EventRow) : Except String (Option APIEvent) :=
  match s.find? fun r => r.id = id with
  | none => .ok none
  | some row =>
    match parseRow row with
    | .ok ev => .ok (some ev)
    | .error e => .error e

/-- The filter options recognized by `EventManager.getEvents`. -/
structure EventFilter where
  source : Option String
  type : Option String
  startDate : Option String
  endDate : Option String
  tags : Option (List String)

/-- The WHERE conditions `getEvents` appends to its query, in order: each
truthy option contributes one conjunct; the `tags` option contributes one
conjunct that is a disjunction of `LIKE '%tag%'` tests on the serialized
`tags` column. -/
def whereConds (o : EventFilter) : List (EventRow → Bool) :=
  (match o.source with
   | none => []
   | some v => if v = "" then [] else [fun r => r.source = v])
  ++ (match o.type with
      | none => []
      | some v => if v = "" then [] else [fun r => r.type = v])
  ++ (match o.startDate with
      | none => []
      | some v => if v = "" then [] else [fun r => decide (v ≤ r.timestamp)])
  ++ (match o.endDate with
      | none => []
      | some v => if v = "" then [] else [fun r => decide (r.timestamp ≤ v)])
  ++ (match o.tags with
      | none => []
      | some ts => if ts.length > 0 then [fun r => ts.any fun t => likeSub t r.tags] else [])

/-- A row satisfies the query's WHERE clause when it satisfies all
appended conditions. -/
def matchesFilter (o : EventFilter) (r : EventRow) : Bool :=
  (whereConds o).all fun c => c r

/-- The rows `EventManager.getEvents` reads: the table filtered by the WHERE
clause. (`ORDER BY`, `LIMIT` and `OFFSET` only reorder and paginate the
matching rows and are not modelled; the read-path deserialization is
`parseRow` as in `getEvent`.) -/
def getEvents (o : EventFilter) (s : List EventRow) : List EventRow :=
  s.filter (matchesFilter o)

/-- A patch for `updateEvent`: the JSON body's known fields, each possibly
absent. -/
structure EventPatch where
  id : Option String
  timestamp : Option String
  source : Option String
  type : Option String
  title : Option String
  metadata : Option Json
  linked_uris : Option Json
  tags : Option Json
  mood : Option Json
  location : Option Json
  duration : Option Json
  created_at : Option String
  updated_at : Option String
deriving Repr

/-- The spread merge of `updateEvent`:
fields present in the patch override, then `updated_at` is set to `now`. -/
def applyPatch (ev : APIEvent) (p : EventPatch) (now : String) : APIEvent :=
  { id := p.id.getD ev.id,
    timestamp := p.timestamp.getD ev.timestamp,
    source := p.source.getD ev.source,
    type := p.type.getD ev.type,
    title := p.title.getD ev.title,
    metadata := p.metadata.getD ev.metadata,
    linked_uris := p.linked_uris.getD ev.linked_uris,
    tags := p.tags.getD ev.tags,
    mood := p.mood.or ev.mood,
    location := p.location.or ev.location,
    duration := p.duration.or ev.duration,
    created_at := p.created_at.getD ev.created_at,
    updated_at := now }

/-- View a merged record as a validation candidate (every known field
present). -/
def toData (a : APIEvent) : EventData :=
  { id := some a.id, timestamp := some a.timestamp, source := some a.source,
    type := some a.type, title := some a.title, metadata := some a.metadata,
    linked_uris := some a.linked_uris, tags := some a.tags, mood := a.mood,
    location := a.location, duration := a.duration,
    created_at := some a.created_at, updated_at := some a.updated_at }

/-- The columns the UPDATE statement sets on the matching row: everything
except `id` and `created_at`. -/
def updateRowWith (r : EventRow) (m : APIEvent) : EventRow :=
  { r with
    timestamp := m.timestamp,
    source := m.source,
    type := m.type,
    title := m.title,
    metadata := stringifyJson (if jsTruthy m.metadata then m.metadata else Json.obj []),
    linked_uris := stringifyJson (if jsTruthy m.linked_uris then m.linked_uris else Json.arr []),
    tags := stringifyJson (if jsTruthy m.tags then m.tags else Json.arr []),
    mood := m.mood,
    location := optJsonSer m.location,
    duration := m.duration,
    updated_at := m.updated_at }

/-- `EventManager.updateEvent`: read the existing record, throw a not-found
error if absent, shallow-merge the patch over it, validate the merged
record, throw a validation error (store untouched) if it fails, otherwise
re-serialize and UPDATE the row and resolve with the merged record. -/
def updateEvent (now id : String) (updates : EventPatch) (s : List EventRow) :
    List EventRow × Except String APIEvent :=
  match getEvent id s with
  | .error e => (s, .error e)
  | .ok none => (s, .error ("Event not found: " ++ id))
  | .ok (some ev) =>
    let updatedEvent := applyPatch ev updates now
    if validate (toData updatedEvent) then
      (s.map fun r => if r.id = id then updateRowWith r updatedEvent else r,
       .ok updatedEvent)
    else
      (s, .error "Invalid event: schema validation failed")

/-- The parsed contents of a `plugin.json` descriptor file. Each known key
may be absent; `enabled` is kept as a raw JSON value because the handlers
compare it with `!== false` and branch on its truthiness. -/
structure PluginConfigFile where
  name : Option String
  description : Option String
  version : Option String
  author : Option String
  source : Option String
  type : Option String
  main : Option String
  schedule : Option String
  enabled : Option Json
  lastRun : Option String
  config : Option Json
deriving Repr

/-- One plugin directory on disk: its `plugin.json` (already parsed; `none`
when the file is missing or unparseable) and whether the stub executable
`index.js` exists. -/
structure PluginDir where
  config : Option PluginConfigFile
  hasIndex : Bool
deriving Repr

/-- The scheduler state: the next fresh cron-task handle and the
`activeJobs` map from plugin id to its live cron task (handle and schedule
expression). `cron.schedule` allocates a fresh task; `job.stop()` together
with `activeJobs.delete` removes the entry. -/
structure SchedState where
  counter : Nat
  jobs : List (String × Nat × String)
deriving Repr

/-- The server state the plugin routes act on: the plugin root directory (a
listing of plugin directories by name) and the scheduler state. -/
structure SysState where
  plugins : List (String × PluginDir)
  sched : SchedState
deriving Repr

/-- JavaScript truthiness of an optional string. -/
def strTruthy (o : Option String) : Bool :=
  match o with
  | some v => v ≠ ""
  | none => false

/-- Number of live triggers the scheduler holds for `id`. -/
def countLive (id : String) (st : SchedState) : Nat :=
  (st.jobs.filter fun e => e.1 = id).length

/-- `stopScheduledJob`: if the map holds a job for `id`, stop the cron task
and delete the entry; otherwise do nothing. -/
def stopScheduledJob (id : String) (st : SchedState) : SchedState :=
  match st.jobs.find? fun e => e.1 = id with
  | some _ => { st with jobs := st.jobs.filter fun e => ¬(e.1 = id) }
  | none => st

/-- `startScheduledJob`: always stop any existing job for `id` first, then
register a new recurring cron task only when the descriptor has a truthy
`schedule` and a truthy `enabled`. -/
def startScheduledJob (id : String) (config : PluginConfigFile) (st : SchedState) : SchedState :=
  let st1 := stopScheduledJob id st
  if strTruthy config.schedule && jsTruthyOpt config.enabled then
    { counter := st1.counter + 1,
      jobs := (id, st1.counter, config.schedule.getD "") :: st1.jobs }
  else st1

/-- Look up a plugin directory by name. -/
def lookupDir (id : String) (s : SysState) : Option PluginDir :=
  (s.plugins.find? fun e => e.1 = id).map Prod.snd

/-- Persist a descriptor: rewrite the `plugin.json` of the directory named
`id`. -/
def writeCfg (id : String) (c : PluginConfigFile) (s : SysState) : SysState :=
  { s with plugins := s.plugins.map fun e =>
      if e.1 = id then (e.1, { e.2 with config := some c }) else e }

/-- `POST /api/plugins/:id/enable`: read the descriptor (500 on a missing
directory or unparseable file, state unchanged), set `enabled := true`,
write it back, and start the scheduled job when a schedule is configured. -/
def enableHandler (id : String) (s : SysState) : SysState × Except String Unit :=
  match lookupDir id s with
  | none => (s, .error "ENOENT")
  | some d =>
    match d.config with
    | none => (s, .error "Unexpected token in JSON")
    | some c =>
      let c1 := { c with enabled := some (Json.bool true) }
      let s1 := writeCfg id c1 s
      if strTruthy c1.schedule && jsTruthyOpt c1.enabled then
        ({ s1 with sched := startScheduledJob id c1 s1.sched }, .ok ())
      else (s1, .ok ())

/-- `POST /api/plugins/:id/disable`: set `enabled := false`, write it back,
and stop the scheduled job. -/
def disableHandler (id : String) (s : SysState) : SysState × Except String Unit :=
  match lookupDir id s with
  | none => (s, .error "ENOENT")
  | some d =>
    match d.config with
    | none => (s, .error "Unexpected token in JSON")
    | some c =>
      let c1 := { c with enabled := some (Json.bool false) }
      let s1 := writeCfg id c1 s
      ({ s1 with sched := stopScheduledJob id s1.sched }, .ok ())

/-- `Object.assign(config, updates)`: keys present in the patch override. -/
def assignCfg (c p : PluginConfigFile) : PluginConfigFile :=
  { name := p.name.or c.name,
    description := p.description.or c.description,
    version := p.version.or c.version,
    author := p.author.or c.author,
    source := p.source.or c.source,
    type := p.type.or c.type,
    main := p.main.or c.main,
    schedule := p.schedule.or c.schedule,
    enabled := p.enabled.or c.enabled,
    lastRun := p.lastRun.or c.lastRun,
    config := p.config.or c.config }

/-- `PUT /api/plugins/:id/config`: merge the body into the descriptor and
persist it; then, when the result has a truthy schedule and is enabled,
stop and restart the job, else when the result is disabled, stop the job —
and in the remaining case (enabled but no truthy schedule) touch no
trigger. -/
def configUpdateHandler (id : String) (p : PluginConfigFile) (s : SysState) :
    SysState × Except String Unit :=
  match lookupDir id s with
  | none => (s, .error "ENOENT")
  | some d =>
    match d.config with
    | none => (s, .error "Unexpected token in JSON")
    | some c =>
      let c1 := assignCfg c p
      let s1 := writeCfg id c1 s
      if strTruthy c1.schedule && jsTruthyOpt c1.enabled then
        ({ s1 with sched := startScheduledJob id c1 (stopScheduledJob id s1.sched) }, .ok ())
      else if !(jsTruthyOpt c1.enabled) then
        ({ s1 with sched := stopScheduledJob id s1.sched }, .ok ())
      else (s1, .ok ())

/-- One step of the startup scan: an unreadable descriptor is skipped, an
enabled descriptor with a schedule gets its job started. -/
def initStep (st : SchedState) (e : String × PluginDir) : SchedState :=
  match e.2.config with
  | none => st
  | some c =>
    if jsTruthyOpt c.enabled && strTruthy c.schedule then
      startScheduledJob e.1 c st
    else st

/-- `initializeScheduledJobs`: scan every plugin directory once at startup,
skipping unreadable descriptors, and start the job for each enabled plugin
with a schedule. -/
def initializeScheduledJobs (s : SysState) : SysState :=
  { s with sched := s.plugins.foldl initStep s.sched }

/-- The observable outcome of one plugin subprocess: exit code and captured
output streams. -/
structure ExitInfo where
  code : Int
  stdout : String
  stderr : String
deriving Repr

/-- What `runPlugin` resolves with on a zero exit code. -/
structure RunResult where
  success : Bool
  stdout : String
  stderr : String
  exitCode : Int
deriving Repr

/-- `updatePluginLastRun`: best-effort rewrite of the descriptor's
`lastRun` to the current time; a read or parse failure is logged and
swallowed, leaving the state unchanged. -/
def updatePluginLastRun (id now : String) (s : SysState) : SysState :=
  match lookupDir id s with
  | none => s
  | some d =>
    match d.config with
    | none => s
    | some c => writeCfg id { c with lastRun := some now } s

/-- `runPlugin` from the subprocess `close` event on: the exit (`oc`)
always triggers the `lastRun` update, then the promise resolves when the
exit code is 0 and rejects otherwise with an error carrying the exit code
and the captured stderr. -/
def runPlugin (id now : String) (oc : ExitInfo) (s : SysState) :
    SysState × Except String RunResult :=
  let s1 := updatePluginLastRun id now s
  if oc.code = 0 then
    (s1, .ok { success := true, stdout := oc.stdout, stderr := oc.stderr, exitCode := oc.code })
  else
    (s1, .error ("Plugin failed with exit code " ++ toString oc.code ++ ": " ++ oc.stderr))

/-- The descriptor `POST /api/plugins/install` writes. -/
def installConfig (name source : String) : PluginConfigFile :=
  { name := some name,
    description := some ("Plugin installed from " ++ source),
    version := some "1.0.0",
    author := some "LifeOS Core",
    source := some source,
    type := some "manual",
    main := none,
    schedule := none,
    enabled := some (Json.bool false),
    lastRun := none,
    config := some (Json.obj []) }

/-- `POST /api/plugins/install`: 400 when `source` or `name` is absent or
empty; otherwise `fs.mkdir` with `recursive: true` (which succeeds whether
or not the directory already exists) and write the fresh `plugin.json` and
the stub `index.js` into the directory. -/
def installHandler (source name : Option String) (s : SysState) :
    SysState × Except String String :=
  if !(strTruthy source) || !(strTruthy name) then
    (s, .error "Source and name are required")
  else
    let nm := name.getD ""
    let src := source.getD ""
    let newDir : PluginDir := { config := some (installConfig nm src), hasIndex := true }
    let plugins1 :=
      if s.plugins.any fun e => e.1 = nm then
        s.plugins.map fun e => if e.1 = nm then (e.1, newDir) else e
      else s.plugins ++ [(nm, newDir)]
    ({ s with plugins := plugins1 }, .ok "Plugin installed successfully")

/-- `config.enabled !== false`: only a literal boolean `false` counts as
disabled. -/
def enabledFlag (v : Option Json) : Bool :=
  match v with
  | some (Json.bool false) => false
  | _ => true

/-- The plugin entry fields the listing and get handlers respond with (the
fields the claims concern). -/
structure PluginEntry where
  id : String
  name : String
  schedule : Option String
  enabled : Bool
  lastRun : Option String
deriving Repr

/-- The entry `GET /api/plugins` and `GET /api/plugins/:id` build for a
directory with a readable descriptor. -/
def listEntry (id : String) (c : PluginConfigFile) : PluginEntry :=
  { id := id,
    name := strOr c.name id,
    schedule := c.schedule,
    enabled := enabledFlag c.enabled,
    lastRun := c.lastRun }

/-- One entry of `GET /api/plugins`: a directory whose descriptor cannot be
read degrades to a disabled entry instead of aborting the listing. -/
def listEntryOfDir (id : String) (d : PluginDir) : PluginEntry :=
  match d.config with
  | some c => listEntry id c
  | none => { id := id, name := id, schedule := none, enabled := false, lastRun := none }

/-- `GET /api/plugins`. -/
def listHandler (s : SysState) : List PluginEntry :=
  s.plugins.map fun e => listEntryOfDir e.1 e.2

/-- `GET /api/plugins/:id` (404 when the directory is missing, 500 when the
descriptor is unreadable). -/
def getPluginHandler (id : String) (s : SysState) : Except String PluginEntry :=
  match lookupDir id s with
  | none => .error "Plugin not found"
  | some d =>
    match d.config with
    | none => .error "Unexpected token in JSON"
    | some c => .ok (listEntry id c)

/-- Does a descriptor warrant an active trigger: truthy `enabled` together
with a present, nonempty `schedule`? -/
def descWants (d : PluginDir) : Bool :=
  match d.config with
  | some c => jsTruthyOpt c.enabled && strTruthy c.schedule
  | none => false

/-- The scheduler invariant the spec states: a plugin holds exactly one
active trigger when its descriptor is enabled with a nonempty schedule, and
none otherwise. -/
def triggerInvariant (s : SysState) : Prop :=
  ∀ p ∈ s.plugins, countLive p.1 s.sched = if descWants p.2 then 1 else 0

theorem countLive_stop (id : String) (st : SchedState) :
    countLive id (stopScheduledJob id st) = 0 := by
  unfold stopScheduledJob countLive
  cases hf : st.jobs.find? fun e => e.1 = id with
  | none =>
    simp only
    rw [List.length_eq_zero, List.filter_eq_nil_iff]
    intro a ha
    have := List.find?_eq_none.mp hf a ha
    simpa using this
  | some e =>
    simp only
    rw [List.length_eq_zero, List.filter_eq_nil_iff]
    intro a ha
    have := (List.mem_filter.mp ha).2
    simpa using this

theorem filter_key_comm (n id : String) (l : List (String × Nat × String)) (h : n ≠ id) :
    (l.filter fun e => ¬(e.1 = id)).filter (fun e => e.1 = n)
      = l.filter fun e => e.1 = n := by
  rw [List.filter_filter]
  apply List.filter_congr
  intro a _
  by_cases han : a.1 = n
  · have hai : ¬(a.1 = id) := by rw [han]; exact h
    simp [han, hai, h]
  · simp [han]

theorem countLive_stop_ne (n id : String) (st : SchedState) (h : n ≠ id) :
    countLive n (stopScheduledJob id st) = countLive n st := by
  unfold stopScheduledJob countLive
  cases hf : st.jobs.find? fun e => e.1 = id with
  | none => rfl
  | some e =>
    simp only
    rw [filter_key_comm n id st.jobs h]

theorem countLive_start (id : String) (c : PluginConfigFile) (st : SchedState) :
    countLive id (startScheduledJob id c st)
      = if strTruthy c.schedule && jsTruthyOpt c.enabled then 1 else 0 := by
  have h0 := countLive_stop id st
  unfold startScheduledJob
  cases hc : strTruthy c.schedule && jsTruthyOpt c.enabled with
  | false => simpa [hc] using h0
  | true =>
    simp only [hc, if_pos]
    unfold countLive at h0 ⊢
    simp [List.filter_cons, h0]

theorem countLive_start_ne (n id : String) (c : PluginConfigFile) (st : SchedState)
    (h : n ≠ id) :
    countLive n (startScheduledJob id c st) = countLive n st := by
  have h0 := countLive_stop_ne n id st h
  have hne : ¬(id = n) := fun e => h e.symm
  unfold startScheduledJob
  cases hc : strTruthy c.schedule && jsTruthyOpt c.enabled with
  | false => simpa [hc] using h0
  | true =>
    simp only [hc, if_pos]
    unfold countLive at h0 ⊢
    simp [List.filter_cons, hne, h0]

theorem find?_map_fstPres {α : Type} (p : α → Bool) (f : α → α) (l : List α)
    (hf : ∀ a, p (f a) = p a) :
    List.find? p (l.map f) = (List.find? p l).map f := by
  induction l with
  | nil => rfl
  | cons a tl ih =>
    simp only [List.map_cons]
    cases hpa : p a with
    | true =>
      rw [List.find?_cons_of_pos _ (by rw [hf]; exact hpa),
        List.find?_cons_of_pos _ hpa]
      rfl
    | false =>
      rw [List.find?_cons_of_neg _ (by rw [hf]; simp [hpa]),
        List.find?_cons_of_neg _ (by simp [hpa])]
      exact ih

theorem find?_append_of_none {α : Type} (p : α → Bool) (l₁ l₂ : List α)
    (h : List.find? p l₁ = none) :
    List.find? p (l₁ ++ l₂) = List.find? p l₂ := by
  induction l₁ with
  | nil => rfl
  | cons a tl ih =>
    have hpa : ¬ p a = true := by
      intro hp
      rw [List.find?_cons_of_pos _ hp] at h
      cases h
    rw [List.cons_append, List.find?_cons_of_neg _ hpa]
    apply ih
    rwa [List.find?_cons_of_neg _ hpa] at h

theorem lookupDir_writeCfg (id : String) (c : PluginConfigFile) (s : SysState) :
    lookupDir id (writeCfg id c s)
      = (lookupDir id s).map fun d => { d with config := some c } := by
  have hf : ∀ a : String × PluginDir,
      (fun e : String × PluginDir => decide (e.1 = id))
        (if a.1 = id then (a.1, { a.2 with config := some c }) else a)
      = (fun e : String × PluginDir => decide (e.1 = id)) a := by
    intro a
    by_cases ha : a.1 = id <;> simp [ha]
  unfold lookupDir writeCfg
  simp only
  rw [find?_map_fstPres _ _ s.plugins hf]
  cases hfind : s.plugins.find? fun e => e.1 = id with
  | none => rfl
  | some a =>
    have hp : a.1 = id := by simpa using List.find?_some hfind
    simp [hp]

/-- C6: `startScheduledJob` first stops any existing trigger for the id and
registers a new one only when the descriptor carries a truthy `schedule`
and a truthy `enabled`, so after a start the id holds exactly one live
trigger when enabled-with-schedule and none otherwise; starting twice in a
row yields that same single trigger, never two; and a stop leaves none. -/
theorem startScheduledJob_single_trigger (id : String) (c : PluginConfigFile)
    (st : SchedState) :
    countLive id (startScheduledJob id c st)
        = (if strTruthy c.schedule && jsTruthyOpt c.enabled then 1 else 0) ∧
    countLive id (startScheduledJob id c (startScheduledJob id c st))
        = (if strTruthy c.schedule && jsTruthyOpt c.enabled then 1 else 0) ∧
    countLive id (stopScheduledJob id st) = 0 :=
  ⟨countLive_start id c st, countLive_start id c _, countLive_stop id st⟩

theorem runPlugin_fst (id now : String) (oc : ExitInfo) (s : SysState) :
    (runPlugin id now oc s).1 = updatePluginLastRun id now s := by
  unfold runPlugin
  by_cases h : oc.code = 0 <;> simp [h]

/-- C7: once the subprocess exits, `runPlugin` always performs the
`lastRun` update, for success and failure exit codes alike; the update is
best-effort (a missing plugin or unreadable descriptor leaves the state
unchanged, and that failure is not propagated into the result); and a
nonzero exit code rejects with an error carrying the exit code and the
captured stderr, while a zero exit resolves with the captured output. -/
theorem runPlugin_spec (id now : String) (oc : ExitInfo) (s : SysState) :
    (∀ d c, lookupDir id s = some d → d.config = some c →
      lookupDir id (runPlugin id now oc s).1
        = some { d with config := some { c with lastRun := some now } }) ∧
    (lookupDir id s = none → (runPlugin id now oc s).1 = s) ∧
    (∀ d, lookupDir id s = some d → d.config = none → (runPlugin id now oc s).1 = s) ∧
    (oc.code ≠ 0 → (runPlugin id now oc s).2
      = .error ("Plugin failed with exit code " ++ toString oc.code ++ ": " ++ oc.stderr)) ∧
    (oc.code = 0 → (runPlugin id now oc s).2
      = .ok { success := true, stdout := oc.stdout, stderr := oc.stderr,
              exitCode := oc.code }) := by
  refine ⟨?_, ?_, ?_, ?_, ?_⟩
  · intro d c hd hc
    rw [runPlugin_fst]
    unfold updatePluginLastRun
    rw [hd]
    dsimp only
    rw [hc]
    dsimp only
    rw [lookupDir_writeCfg, hd]
    rfl
  · intro h
    rw [runPlugin_fst]
    unfold updatePluginLastRun
    rw [h]
  · intro d hd hc
    rw [runPlugin_fst]
    unfold updatePluginLastRun
    rw [hd]
    dsimp only
    rw [hc]
  · intro h
    unfold runPlugin
    simp [h]
  · intro h
    unfold runPlugin
    simp [h]

/-- When some entry of the listing carries the installed name, mapping the
overwrite over the listing makes the lookup find the fresh directory. -/
theorem lookupDir_after_overwrite (nm : String) (nd : PluginDir)
    (l : List (String × PluginDir)) (hex : (l.any fun e => e.1 = nm) = true) :
    List.find? (fun e => e.1 = nm) (l.map fun e => if e.1 = nm then (e.1, nd) else e)
      = some (nm, nd) := by
  induction l with
  | nil => cases hex
  | cons a tl ih =>
    by_cases ha : a.1 = nm
    · simp only [List.map_cons, if_pos ha]
      rw [List.find?_cons_of_pos _ (by simpa using ha), ha]
    · simp only [List.map_cons, if_neg ha]
      rw [List.find?_cons_of_neg _ (by simpa using ha)]
      apply ih
      rcases List.any_eq_true.mp hex with ⟨b, hb, hpb⟩
      rcases List.mem_cons.mp hb with rfl | hbtl
      · exact absurd (by simpa using hpb) ha
      · exact List.any_eq_true.mpr ⟨b, hbtl, hpb⟩

theorem find?_append_single (nm : String) (nd : PluginDir)
    (l : List (String × PluginDir)) (hnone : (l.any fun e => e.1 = nm) = false) :
    List.find? (fun e => e.1 = nm) (l ++ [(nm, nd)]) = some (nm, nd) := by
  rw [find?_append_of_none]
  · simp [List.find?]
  · rw [List.find?_eq_none]
    intro a ha hpa
    exact (List.any_eq_false.mp hnone) a ha hpa

/-- C9 (amended): install rejects an absent or empty `source` or `name`
with a 400 and otherwise succeeds, (re)creating the plugin directory — a
name that collides with an existing plugin directory is silently
overwritten rather than rejected — and writes the minimal descriptor with
`enabled: false` plus the stub executable, so an installed plugin is never
enabled. -/
theorem installHandler_spec (source name : Option String) (s : SysState) :
    (strTruthy source = false ∨ strTruthy name = false →
      installHandler source name s = (s, .error "Source and name are required")) ∧
    (∀ src nm, source = some src → name = some nm → src ≠ "" → nm ≠ "" →
      (installHandler source name s).2 = .ok "Plugin installed successfully" ∧
      lookupDir nm (installHandler source name s).1
        = some { config := some (installConfig nm src), hasIndex := true } ∧
      (installConfig nm src).enabled = some (Json.bool false)) := by
  constructor
  · intro h
    unfold installHandler
    rcases h with h | h <;> simp [h]
  · intro src nm hsrc hnm h1 h2
    subst hsrc
    subst hnm
    have hst : strTruthy (some src) = true := by simp [strTruthy, h1]
    have hnt : strTruthy (some nm) = true := by simp [strTruthy, h2]
    have hcond : (!(strTruthy (some src)) || !(strTruthy (some nm))) = false := by
      rw [hst, hnt]
      rfl
    refine ⟨?_, ?_, rfl⟩
    · simp only [installHandler, hcond, Bool.false_eq_true, if_false, Option.getD_some]
    · simp only [installHandler, hcond, Bool.false_eq_true, if_false, Option.getD_some]
      unfold lookupDir
      dsimp only
      by_cases hex : (s.plugins.any fun e => e.1 = nm) = true
      · rw [if_pos hex, lookupDir_after_overwrite nm _ s.plugins hex]
        rfl
      · have hexf : (s.plugins.any fun e => e.1 = nm) = false := by
          cases hx : s.plugins.any fun e => e.1 = nm
          · rfl
          · exact absurd hx hex
        rw [if_neg hex, find?_append_single nm _ s.plugins hexf]
        rfl

/-- A plugin directory holding an enabled, scheduled descriptor, used to
exhibit install-over-existing behavior. -/
def cfgExisting : PluginConfigFile :=
  { name := some "p", description := none, version := none, author := none,
    source := none, type := none, main := none, schedule := some "0 * * * *",
    enabled := some (Json.bool true), lastRun := none, config := none }

/-- A server state that already holds the plugin directory `p`. -/
def sInstall : SysState :=
  { plugins := [("p", { config := some cfgExisting, hasIndex := true })],
    sched := { counter := 0, jobs := [] } }

/-- C9 counterexample: installing over the existing plugin directory `p`
succeeds (it does not fail on the name collision) and silently resets the
descriptor. -/
theorem installHandler_collision_cex :
    (lookupDir "p" sInstall).isSome = true ∧
    (installHandler (some "https://example.com/x") (some "p") sInstall).2
      = .ok "Plugin installed successfully" ∧
    lookupDir "p" (installHandler (some "https://example.com/x") (some "p") sInstall).1
      = some { config := some (installConfig "p" "https://example.com/x"),
               hasIndex := true } :=
  ⟨rfl, rfl, rfl⟩

/-- C10: the list and get handlers report `enabled` as
`config.enabled !== false`: a descriptor file lacking the `enabled` key, or
carrying any value other than the boolean `false`, is reported as enabled;
only an explicit `enabled: false` yields a disabled plugin. -/
theorem enabled_reported_notFalse (id : String) (c : PluginConfigFile) (d : PluginDir)
    (hd : d.config = some c) (s : SysState) (hs : lookupDir id s = some d) :
    getPluginHandler id s = .ok (listEntry id c) ∧
    listEntryOfDir id d = listEntry id c ∧
    ((listEntry id c).enabled = false ↔ c.enabled = some (Json.bool false)) ∧
    (c.enabled = none → (listEntry id c).enabled = true) := by
  refine ⟨?_, ?_, ?_, ?_⟩
  · unfold getPluginHandler
    rw [hs]
    dsimp only
    rw [hd]
  · unfold listEntryOfDir
    rw [hd]
  · cases hce : c.enabled with
    | none => simp [listEntry, enabledFlag, hce]
    | some j =>
      cases j with
      | null => simp [listEntry, enabledFlag, hce]
      | bool b => cases b <;> simp [listEntry, enabledFlag, hce]
      | num i => simp [listEntry, enabledFlag, hce]
      | str v => simp [listEntry, enabledFlag, hce]
      | arr xs => simp [listEntry, enabledFlag, hce]
      | obj kvs => simp [listEntry, enabledFlag, hce]
  · intro h
    simp [listEntry, enabledFlag, h]

/-- A descriptor whose `enabled` key holds a non-boolean value. -/
def cfgYes : PluginConfigFile :=
  { name := none, description := none, version := none, author := none,
    source := none, type := none, main := none, schedule := none,
    enabled := some (Json.str "yes"), lastRun := none, config := none }

/-- A server state holding the plugin directory `w` with that descriptor. -/
def sYes : SysState :=
  { plugins := [("w", { config := some cfgYes, hasIndex := true })],
    sched := { counter := 0, jobs := [] } }

theorem enabled_reported_notFalse_witness :
    getPluginHandler "w" sYes = .ok (listEntry "w" cfgYes) ∧
    listEntryOfDir "w" { config := some cfgYes, hasIndex := true } = listEntry "w" cfgYes ∧
    ((listEntry "w" cfgYes).enabled = false ↔ cfgYes.enabled = some (Json.bool false)) ∧
    (cfgYes.enabled = none → (listEntry "w" cfgYes).enabled = true) :=
  enabled_reported_notFalse "w" cfgYes { config := some cfgYes, hasIndex := true } rfl sYes rfl

/-- C3: a payload that fails schema validation is rejected by `createEvent`
with a validation error and nothing is inserted — the store, hence its
total event count, is unchanged. -/
theorem createEvent_invalid_noWrite (genId now : String) (d : EventData)
    (s : List EventRow) (h : validate d = false) :
    createEvent genId now d s = (s, .error "Invalid event: schema validation failed") ∧
    ((createEvent genId now d s).1).length = s.length := by
  have h1 : createEvent genId now d s
      = (s, .error "Invalid event: schema validation failed") := by
    unfold createEvent
    simp [h]
  exact ⟨h1, by rw [h1]⟩

/-- A create payload that lacks the required `title`. -/
def dMissingTitle : EventData :=
  { id := none, timestamp := some "2024-01-01T00:00:00Z", source := some "test",
    type := some "x.y", title := none, metadata := none, linked_uris := none,
    tags := none, mood := none, location := none, duration := none,
    created_at := none, updated_at := none }

theorem createEvent_invalid_noWrite_witness :
    createEvent "gid" "2024-01-02T00:00:00Z" dMissingTitle []
      = ([], .error "Invalid event: schema validation failed") ∧
    (createEvent "gid" "2024-01-02T00:00:00Z" dMissingTitle [] ).1.length = 0 :=
  createEvent_invalid_noWrite "gid" "2024-01-02T00:00:00Z" dMissingTitle [] rfl

/-- A minimal descriptor for exercising `runPlugin`. -/
def cfgRun : PluginConfigFile :=
  { name := none, description := none, version := none, author := none,
    source := none, type := none, main := none, schedule := none,
    enabled := none, lastRun := none, config := none }

/-- A server state holding the plugin directory `p` with that descriptor. -/
def sRun : SysState :=
  { plugins := [("p", { config := some cfgRun, hasIndex := true })],
    sched := { counter := 0, jobs := [] } }

theorem runPlugin_spec_witness :
    lookupDir "p" (runPlugin "p" "T1" ⟨2, "out", "boom"⟩ sRun).1
      = some { config := some { cfgRun with lastRun := some "T1" }, hasIndex := true } ∧
    (runPlugin "p" "T1" ⟨2, "out", "boom"⟩ sRun).2
      = .error ("Plugin failed with exit code " ++ toString (2 : Int) ++ ": " ++ "boom") :=
  ⟨(runPlugin_spec "p" "T1" ⟨2, "out", "boom"⟩ sRun).1
      { config := some cfgRun, hasIndex := true } cfgRun rfl rfl,
    (runPlugin_spec "p" "T1" ⟨2, "out", "boom"⟩ sRun).2.2.2.1 (by decide)⟩

theorem installHandler_spec_witness :
    installHandler none (some "p") sInstall
      = (sInstall, .error "Source and name are required") ∧
    (installHandler (some "s1") (some "np") sInstall).2
      = .ok "Plugin installed successfully" ∧
    lookupDir "np" (installHandler (some "s1") (some "np") sInstall).1
      = some { config := some (installConfig "np" "s1"), hasIndex := true } ∧
    (installConfig "np" "s1").enabled = some (Json.bool false) := by
  have h2 := (installHandler_spec (some "s1") (some "np") sInstall).2 "s1" "np" rfl rfl
      (by decide) (by decide)
  exact ⟨(installHandler_spec none (some "p") sInstall).1 (Or.inl rfl),
    h2.1, h2.2.1, h2.2.2⟩

theorem updateEvent_ok_eq (now id : String) (p : EventPatch) (s : List EventRow)
    (ev : APIEvent) (hget : getEvent id s = .ok (some ev))
    (hval : validate (toData (applyPatch ev p now)) = true) :
    updateEvent now id p s
      = (s.map fun r => if r.id = id then updateRowWith r (applyPatch ev p now) else r,
         .ok (applyPatch ev p now)) := by
  unfold updateEvent
  rw [hget]
  dsimp only
  simp only [hval, if_true]

/-- C1: `updateEvent` validates the full merged record (the existing record
shallow-merged with the patch); an absent id fails with a not-found error,
and a validation failure of the merged record fails with a validation
error, in both cases leaving the store unchanged (no partial write); on
success the single matching row is replaced by the serialization of the
merged record, atomically. -/
theorem updateEvent_validates_merged_atomic (now id : String) (p : EventPatch)
    (s : List EventRow) :
    ((s.find? fun r => r.id = id) = none →
      updateEvent now id p s = (s, .error ("Event not found: " ++ id))) ∧
    (∀ ev, getEvent id s = .ok (some ev) →
      validate (toData (applyPatch ev p now)) = false →
      updateEvent now id p s = (s, .error "Invalid event: schema validation failed")) ∧
    (∀ ev, getEvent id s = .ok (some ev) →
      validate (toData (applyPatch ev p now)) = true →
      updateEvent now id p s
        = (s.map fun r => if r.id = id then updateRowWith r (applyPatch ev p now) else r,
           .ok (applyPatch ev p now))) := by
  refine ⟨?_, ?_, ?_⟩
  · intro hfind
    unfold updateEvent getEvent
    rw [hfind]
  · intro ev hget hval
    unfold updateEvent
    rw [hget]
    dsimp only
    simp only [hval, Bool.false_eq_true, if_false]
  · intro ev hget hval
    exact updateEvent_ok_eq now id p s ev hget hval

/-- The empty patch. -/
def pEmpty : EventPatch :=
  { id := none, timestamp := none, source := none, type := none, title := none,
    metadata := none, linked_uris := none, tags := none, mood := none,
    location := none, duration := none, created_at := none, updated_at := none }

/-- A stored row with literal serialized columns. -/
def rowBase : EventRow :=
  { id := "e1", timestamp := "2024-01-01T00:00:00Z", source := "test", type := "x.y",
    title := "T", metadata := "\x7b\x7d", linked_uris := "[]", tags := "[]",
    mood := none, location := none, duration := none,
    created_at := "2024-01-01T00:00:00Z", updated_at := "2024-01-01T00:00:00Z" }

/-- The structured view of `rowBase`. -/
def evBase : APIEvent :=
  { id := "e1", timestamp := "2024-01-01T00:00:00Z", source := "test", type := "x.y",
    title := "T", metadata := Json.obj [], linked_uris := Json.arr [],
    tags := Json.arr [], mood := none, location := none, duration := none,
    created_at := "2024-01-01T00:00:00Z", updated_at := "2024-01-01T00:00:00Z" }

/-- A patch whose merge result fails the date-time check. -/
def pBadTimestamp : EventPatch := { pEmpty with timestamp := some "" }

theorem updateEvent_validates_merged_atomic_witness :
    updateEvent "2024-01-03T00:00:00Z" "missing" pEmpty []
      = ([], .error ("Event not found: " ++ "missing")) ∧
    updateEvent "2024-01-03T00:00:00Z" "e1" pBadTimestamp [rowBase]
      = ([rowBase], .error "Invalid event: schema validation failed") :=
  ⟨(updateEvent_validates_merged_atomic "2024-01-03T00:00:00Z" "missing" pEmpty []).1 rfl,
    (updateEvent_validates_merged_atomic "2024-01-03T00:00:00Z" "e1" pBadTimestamp
      [rowBase]).2.1 evBase rfl rfl⟩

theorem stringifyJson_ne_empty (v : Json) : stringifyJson v ≠ "" := by
  intro h
  have h2 : printJson v = [] := congrArg String.toList h
  exact printJson_ne_nil v h2

theorem parseRow_fields (row : EventRow) (ev : APIEvent) (h : parseRow row = .ok ev) :
    ev.timestamp = row.timestamp ∧ ev.source = row.source ∧ ev.type = row.type ∧
    ev.title = row.title ∧ ev.mood = row.mood ∧ ev.duration = row.duration ∧
    ev.created_at = row.created_at ∧ ev.id = row.id ∧
    parseJson (if row.metadata = "" then "\x7b\x7d" else row.metadata)
      = some ev.metadata ∧
    parseJson (if row.linked_uris = "" then "[]" else row.linked_uris)
      = some ev.linked_uris ∧
    parseJson (if row.tags = "" then "[]" else row.tags) = some ev.tags ∧
    ((row.location = none ∧ ev.location = none) ∨
      (∃ l j, row.location = some l ∧ parseJson l = some j ∧ ev.location = some j)) := by
  unfold parseRow at h
  split at h
  · rename_i md lu tg hmd hlu htg
    split at h
    · rename_i hloc
      injection h with h2
      subst h2
      refine ⟨rfl, rfl, rfl, rfl, rfl, rfl, rfl, rfl, hmd, hlu, htg, ?_⟩
      exact Or.inl ⟨hloc, rfl⟩
    · rename_i lstr hloc
      split at h
      · rename_i l hl
        injection h with h2
        subst h2
        refine ⟨rfl, rfl, rfl, rfl, rfl, rfl, rfl, rfl, hmd, hlu, htg, ?_⟩
        exact Or.inr ⟨lstr, l, hloc, hl, rfl⟩
      · cases h
  · cases h

theorem validate_parts (m : APIEvent) (h : validate (toData m) = true) :
    (∃ kvs, m.metadata = Json.obj kvs) ∧ (∃ xs, m.tags = Json.arr xs) ∧
    (∃ xs, m.linked_uris = Json.arr xs) ∧ dateParses m.timestamp = true := by
  unfold validate toData at h
  simp only [Bool.and_eq_true] at h
  obtain ⟨⟨⟨⟨⟨⟨⟨h1, h2⟩, h3⟩, h4⟩, h5⟩, h6⟩, h7⟩, h8⟩ := h
  refine ⟨?_, ?_, ?_, h1⟩
  · cases hmd : m.metadata
    case obj kvs => exact ⟨kvs, rfl⟩
    all_goals (rw [hmd] at h5; cases h5)
  · cases htg : m.tags
    case arr xs => exact ⟨xs, rfl⟩
    all_goals (rw [htg] at h6; cases h6)
  · cases hlu : m.linked_uris
    case arr xs => exact ⟨xs, rfl⟩
    all_goals (rw [hlu] at h7; cases h7)

/-- C5: a successful `updateEvent` rewrites the matching row with the
merged record's serialization, whose `created_at` (and `id`) come from the
stored row untouched — the UPDATE statement does not set them, even when
the patch supplies `created_at` — whose `updated_at` is the mutation time,
and whose remaining columns keep their prior values whenever the patch does
not mention the corresponding field. -/
theorem updateEvent_frame (now id : String) (p : EventPatch) (s : List EventRow)
    (row : EventRow) (ev : APIEvent) (jm jl jt : Json)
    (hfind : (s.find? fun r => r.id = id) = some row)
    (hget : getEvent id s = .ok (some ev))
    (hm : row.metadata = stringifyJson jm)
    (hl : row.linked_uris = stringifyJson jl)
    (ht : row.tags = stringifyJson jt)
    (hloc : ∀ l, row.location = some l → ∃ j, l = stringifyJson j ∧ jsTruthy j = true)
    (hval : validate (toData (applyPatch ev p now)) = true) :
    (((updateEvent now id p s).1.find? fun r => r.id = id)
        = some (updateRowWith row (applyPatch ev p now))) ∧
    (updateRowWith row (applyPatch ev p now)).id = row.id ∧
    (updateRowWith row (applyPatch ev p now)).created_at = row.created_at ∧
    (updateRowWith row (applyPatch ev p now)).updated_at = now ∧
    (p.timestamp = none →
      (updateRowWith row (applyPatch ev p now)).timestamp = row.timestamp) ∧
    (p.source = none → (updateRowWith row (applyPatch ev p now)).source = row.source) ∧
    (p.type = none → (updateRowWith row (applyPatch ev p now)).type = row.type) ∧
    (p.title = none → (updateRowWith row (applyPatch ev p now)).title = row.title) ∧
    (p.mood = none → (updateRowWith row (applyPatch ev p now)).mood = row.mood) ∧
    (p.duration = none →
      (updateRowWith row (applyPatch ev p now)).duration = row.duration) ∧
    (p.metadata = none →
      (updateRowWith row (applyPatch ev p now)).metadata = row.metadata) ∧
    (p.linked_uris = none →
      (updateRowWith row (applyPatch ev p now)).linked_uris = row.linked_uris) ∧
    (p.tags = none → (updateRowWith row (applyPatch ev p now)).tags = row.tags) ∧
    (p.location = none →
      (updateRowWith row (applyPatch ev p now)).location = row.location) := by
  have hpr : parseRow row = .ok ev := by
    unfold getEvent at hget
    rw [hfind] at hget
    dsimp only at hget
    cases hpr2 : parseRow row with
    | ok e =>
      rw [hpr2] at hget
      injection hget with h3
      injection h3 with h4
      rw [h4]
    | error e =>
      rw [hpr2] at hget
      cases hget
  obtain ⟨hts, hsrc, hty, hti, hmood, hdur, hca, hid, hpm, hpl, hpt, hplo⟩ :=
    parseRow_fields row ev hpr
  have hevm : ev.metadata = jm := by
    rw [hm, if_neg (stringifyJson_ne_empty jm), parseJson_stringify] at hpm
    injection hpm with h4
    exact h4.symm
  have hevl : ev.linked_uris = jl := by
    rw [hl, if_neg (stringifyJson_ne_empty jl), parseJson_stringify] at hpl
    injection hpl with h4
    exact h4.symm
  have hevt : ev.tags = jt := by
    rw [ht, if_neg (stringifyJson_ne_empty jt), parseJson_stringify] at hpt
    injection hpt with h4
    exact h4.symm
  obtain ⟨⟨mkvs, hmo⟩, ⟨txs, hto⟩, ⟨lxs, hlo⟩, -⟩ :=
    validate_parts (applyPatch ev p now) hval
  refine ⟨?_, rfl, rfl, rfl, ?_, ?_, ?_, ?_, ?_, ?_, ?_, ?_, ?_, ?_⟩
  · rw [updateEvent_ok_eq now id p s ev hget hval]
    dsimp only
    have hfp : ∀ r : EventRow,
        (fun r2 : EventRow => decide (r2.id = id))
          (if r.id = id then updateRowWith r (applyPatch ev p now) else r)
        = (fun r2 : EventRow => decide (r2.id = id)) r := by
      intro r
      by_cases hr : r.id = id
      · simp [hr, updateRowWith]
      · simp [hr]
    rw [find?_map_fstPres _ _ s hfp, hfind]
    have hrowid : row.id = id := by simpa using List.find?_some hfind
    simp [hrowid]
  · intro h
    simp [updateRowWith, applyPatch, h, hts]
  · intro h
    simp [updateRowWith, applyPatch, h, hsrc]
  · intro h
    simp [updateRowWith, applyPatch, h, hty]
  · intro h
    simp [updateRowWith, applyPatch, h, hti]
  · intro h
    simp [updateRowWith, applyPatch, h, hmood]
  · intro h
    simp [updateRowWith, applyPatch, h, hdur]
  · intro h
    have h2 : (applyPatch ev p now).metadata = jm := by
      simp [applyPatch, h, hevm]
    have h3 : jsTruthy jm = true := by
      rw [← h2, hmo]
      rfl
    simp only [updateRowWith, h2, h3, if_true]
    exact hm.symm
  · intro h
    have h2 : (applyPatch ev p now).linked_uris = jl := by
      simp [applyPatch, h, hevl]
    have h3 : jsTruthy jl = true := by
      rw [← h2, hlo]
      rfl
    simp only [updateRowWith, h2, h3, if_true]
    exact hl.symm
  · intro h
    have h2 : (applyPatch ev p now).tags = jt := by
      simp [applyPatch, h, hevt]
    have h3 : jsTruthy jt = true := by
      rw [← h2, hto]
      rfl
    simp only [updateRowWith, h2, h3, if_true]
    exact ht.symm
  · intro h
    have h2 : (applyPatch ev p now).location = ev.location := by
      simp [applyPatch, h, Option.none_or]
    rcases hplo with ⟨hrl, hel⟩ | ⟨l, j, hrl, hpj, hel⟩
    · simp only [updateRowWith, h2, hel, hrl]
      rfl
    · obtain ⟨j2, hj2, htr⟩ := hloc l hrl
      have hjj : j = j2 := by
        rw [hj2, parseJson_stringify] at hpj
        injection hpj with h4
        exact h4.symm
      subst hjj
      simp only [updateRowWith, h2, hel, hrl]
      simp [optJsonSer, htr, hj2]

/-- A stored row whose serialized columns are canonical serializer output. -/
def rowCanon : EventRow :=
  { id := "e1", timestamp := "2024-01-01T00:00:00Z", source := "test", type := "x.y",
    title := "T", metadata := stringifyJson (Json.obj []),
    linked_uris := stringifyJson (Json.arr []), tags := stringifyJson (Json.arr []),
    mood := none, location := none, duration := none,
    created_at := "2024-01-01T00:00:00Z", updated_at := "2024-01-01T00:00:00Z" }

/-- A patch that renames the title and tries to overwrite `created_at`. -/
def pTitle : EventPatch := { pEmpty with title := some "U", created_at := some "HACK" }

theorem rowCanon_parses : parseRow rowCanon = .ok evBase := by
  unfold parseRow
  rw [show rowCanon.metadata = stringifyJson (Json.obj []) from rfl,
    show rowCanon.linked_uris = stringifyJson (Json.arr []) from rfl,
    show rowCanon.tags = stringifyJson (Json.arr []) from rfl,
    if_neg (stringifyJson_ne_empty (Json.obj [])),
    if_neg (stringifyJson_ne_empty (Json.arr [])),
    parseJson_stringify, parseJson_stringify]
  rfl

theorem getEvent_rowCanon : getEvent "e1" [rowCanon] = .ok (some evBase) := by
  unfold getEvent
  rw [show (([rowCanon].find? fun r => r.id = "e1") : Option EventRow)
      = some rowCanon from rfl]
  dsimp only
  rw [rowCanon_parses]

theorem updateEvent_frame_witness :
    ((((updateEvent "2024-02-02T00:00:00Z" "e1" pTitle [rowCanon]).1.find?
        fun r => r.id = "e1"))
        = some (updateRowWith rowCanon (applyPatch evBase pTitle "2024-02-02T00:00:00Z"))) ∧
    (updateRowWith rowCanon (applyPatch evBase pTitle "2024-02-02T00:00:00Z")).id
        = rowCanon.id ∧
    (updateRowWith rowCanon (applyPatch evBase pTitle "2024-02-02T00:00:00Z")).created_at
        = rowCanon.created_at ∧
    (updateRowWith rowCanon (applyPatch evBase pTitle "2024-02-02T00:00:00Z")).updated_at
        = "2024-02-02T00:00:00Z" ∧
    (pTitle.timestamp = none →
      (updateRowWith rowCanon (applyPatch evBase pTitle "2024-02-02T00:00:00Z")).timestamp
        = rowCanon.timestamp) ∧
    (pTitle.source = none →
      (updateRowWith rowCanon (applyPatch evBase pTitle "2024-02-02T00:00:00Z")).source
        = rowCanon.source) ∧
    (pTitle.type = none →
      (updateRowWith rowCanon (applyPatch evBase pTitle "2024-02-02T00:00:00Z")).type
        = rowCanon.type) ∧
    (pTitle.title = none →
      (updateRowWith rowCanon (applyPatch evBase pTitle "2024-02-02T00:00:00Z")).title
        = rowCanon.title) ∧
    (pTitle.mood = none →
      (updateRowWith rowCanon (applyPatch evBase pTitle "2024-02-02T00:00:00Z")).mood
        = rowCanon.mood) ∧
    (pTitle.duration = none →
      (updateRowWith rowCanon (applyPatch evBase pTitle "2024-02-02T00:00:00Z")).duration
        = rowCanon.duration) ∧
    (pTitle.metadata = none →
      (updateRowWith rowCanon (applyPatch evBase pTitle "2024-02-02T00:00:00Z")).metadata
        = rowCanon.metadata) ∧
    (pTitle.linked_uris = none →
      (updateRowWith rowCanon (applyPatch evBase pTitle "2024-02-02T00:00:00Z")).linked_uris
        = rowCanon.linked_uris) ∧
    (pTitle.tags = none →
      (updateRowWith rowCanon (applyPatch evBase pTitle "2024-02-02T00:00:00Z")).tags
        = rowCanon.tags) ∧
    (pTitle.location = none →
      (updateRowWith rowCanon (applyPatch evBase pTitle "2024-02-02T00:00:00Z")).location
        = rowCanon.location) :=
  updateEvent_frame "2024-02-02T00:00:00Z" "e1" pTitle [rowCanon] rowCanon evBase
    (Json.obj []) (Json.arr []) (Json.arr []) rfl getEvent_rowCanon rfl rfl rfl
    (fun _ h => Option.noConfusion h) rfl

theorem getEvent_append_single (idv : String) (s : List EventRow) (row : EventRow)
    (e : APIEvent) (hnone : (s.find? fun r => r.id = idv) = none) (hid : row.id = idv)
    (hpr : parseRow row = .ok e) :
    getEvent idv (s ++ [row]) = .ok (some e) := by
  unfold getEvent
  rw [find?_append_of_none _ _ _ hnone,
    List.find?_cons_of_pos _ (by simpa using hid)]
  dsimp only
  rw [hpr]

theorem parseRow_createdRow (evId ts src ty ti createdAt now : String)
    (md lu tg : Json) (mood dur loc : Option Json) :
    parseRow
      { id := evId, timestamp := ts, source := src, type := ty, title := ti,
        metadata := stringifyJson md, linked_uris := stringifyJson lu,
        tags := stringifyJson tg, mood := mood, location := optJsonSer loc,
        duration := dur, created_at := createdAt, updated_at := now }
      = .ok
        { id := evId, timestamp := ts, source := src, type := ty, title := ti,
          metadata := md, linked_uris := lu, tags := tg, mood := mood,
          location := (match loc with
            | some l => if jsTruthy l then some l else none
            | none => none),
          duration := dur, created_at := createdAt, updated_at := now } := by
  unfold parseRow
  dsimp only
  rw [if_neg (stringifyJson_ne_empty md), if_neg (stringifyJson_ne_empty lu),
    if_neg (stringifyJson_ne_empty tg), parseJson_stringify, parseJson_stringify,
    parseJson_stringify]
  cases loc with
  | none => rfl
  | some l =>
    by_cases htr : jsTruthy l
    · simp [optJsonSer, htr, parseJson_stringify]
    · simp [optJsonSer, htr]

/-- C4: for a valid payload whose effective id is fresh, `createEvent`
succeeds and returns the record with `metadata`, `linked_uris` and `tags`
as structured values equal to the input's (defaults applied when absent),
and `getEvent` on the returned id reads back exactly the same structured
record — serialize-then-deserialize is the identity on the compound fields
— while only `id`, `created_at` and `updated_at` are store-assigned. -/
theorem createEvent_getEvent_roundtrip (genId now : String) (d : EventData)
    (s : List EventRow) (ts src ty ti : String)
    (hts : d.timestamp = some ts) (hsrc : d.source = some src)
    (hty : d.type = some ty) (hti : d.title = some ti)
    (hv : validate d = true)
    (hfresh : ∀ r ∈ s, ¬ (r.id = strOr d.id genId)) :
    (createEvent genId now d s).2 = .ok
      { id := strOr d.id genId, timestamp := ts, source := src, type := ty, title := ti,
        metadata := jsOr d.metadata (Json.obj []),
        linked_uris := jsOr d.linked_uris (Json.arr []),
        tags := jsOr d.tags (Json.arr []),
        mood := d.mood,
        location := (match d.location with
          | some l => if jsTruthy l then some l else none
          | none => none),
        duration := d.duration,
        created_at := strOr d.created_at now, updated_at := now } ∧
    getEvent (strOr d.id genId) (createEvent genId now d s).1 = .ok (some
      { id := strOr d.id genId, timestamp := ts, source := src, type := ty, title := ti,
        metadata := jsOr d.metadata (Json.obj []),
        linked_uris := jsOr d.linked_uris (Json.arr []),
        tags := jsOr d.tags (Json.arr []),
        mood := d.mood,
        location := (match d.location with
          | some l => if jsTruthy l then some l else none
          | none => none),
        duration := d.duration,
        created_at := strOr d.created_at now, updated_at := now }) := by
  have hany : (s.any fun r => r.id = strOr d.id genId) = false := by
    rw [List.any_eq_false]
    intro r hr
    simpa using hfresh r hr
  have hnone : (s.find? fun r => r.id = strOr d.id genId) = none := by
    rw [List.find?_eq_none]
    intro a ha
    simpa using hfresh a ha
  constructor
  · unfold createEvent
    simp only [hv, if_true]
    rw [hts, hsrc, hty, hti]
    dsimp only
    simp only [hany, Bool.false_eq_true, if_false]
    cases hdl : d.location with
    | none => simp [optJsonSer, parseJson_stringify]
    | some l =>
      by_cases htr : jsTruthy l
      · simp [optJsonSer, htr, parseJson_stringify]
      · simp [optJsonSer, htr, parseJson_stringify]
  · unfold createEvent
    simp only [hv, if_true]
    rw [hts, hsrc, hty, hti]
    dsimp only
    simp only [hany, Bool.false_eq_true, if_false]
    exact getEvent_append_single (strOr d.id genId) s _ _ hnone rfl
      (parseRow_createdRow (strOr d.id genId) ts src ty ti (strOr d.created_at now) now
        (jsOr d.metadata (Json.obj [])) (jsOr d.linked_uris (Json.arr []))
        (jsOr d.tags (Json.arr [])) d.mood d.duration d.location)

/-- A fully-populated valid payload. -/
def dValid : EventData :=
  { id := none, timestamp := some "2024-01-01T00:00:00Z", source := some "test",
    type := some "x.y", title := some "T",
    metadata := some (Json.obj [("k", Json.str "v")]),
    linked_uris := some (Json.arr [Json.str "life://a"]),
    tags := some (Json.arr [Json.str "gymnastics"]),
    mood := some (Json.num 5), location := none, duration := none,
    created_at := none, updated_at := none }

theorem createEvent_getEvent_roundtrip_witness :
    (createEvent "gid" "2024-01-05T00:00:00Z" dValid []).2 = .ok
      { id := strOr dValid.id "gid", timestamp := "2024-01-01T00:00:00Z",
        source := "test", type := "x.y", title := "T",
        metadata := jsOr dValid.metadata (Json.obj []),
        linked_uris := jsOr dValid.linked_uris (Json.arr []),
        tags := jsOr dValid.tags (Json.arr []),
        mood := dValid.mood,
        location := (match dValid.location with
          | some l => if jsTruthy l then some l else none
          | none => none),
        duration := dValid.duration,
        created_at := strOr dValid.created_at "2024-01-05T00:00:00Z",
        updated_at := "2024-01-05T00:00:00Z" } ∧
    getEvent (strOr dValid.id "gid")
        (createEvent "gid" "2024-01-05T00:00:00Z" dValid []).1
      = .ok (some
        { id := strOr dValid.id "gid", timestamp := "2024-01-01T00:00:00Z",
          source := "test", type := "x.y", title := "T",
          metadata := jsOr dValid.metadata (Json.obj []),
          linked_uris := jsOr dValid.linked_uris (Json.arr []),
          tags := jsOr dValid.tags (Json.arr []),
          mood := dValid.mood,
          location := (match dValid.location with
            | some l => if jsTruthy l then some l else none
            | none => none),
          duration := dValid.duration,
          created_at := strOr dValid.created_at "2024-01-05T00:00:00Z",
          updated_at := "2024-01-05T00:00:00Z" }) :=
  createEvent_getEvent_roundtrip "gid" "2024-01-05T00:00:00Z" dValid []
    "2024-01-01T00:00:00Z" "test" "x.y" "T" rfl rfl rfl rfl rfl
    (fun r hr => absurd hr (List.not_mem_nil r))

/-- C8: the WHERE clause `getEvents` builds combines its conditions
conjunctively — `source` and `type` by exact match, `startDate`/`endDate`
as an inclusive (lexicographic) range on `timestamp` — except the `tags`
condition, which holds when ANY supplied tag value occurs as a substring of
the record's serialized `tags` column. -/
theorem getEvents_filter_semantics (o : EventFilter) (r : EventRow)
    (hso : o.source ≠ some "") (htyo : o.type ≠ some "")
    (hsd : o.startDate ≠ some "") (hed : o.endDate ≠ some "") :
    (∀ s, r ∈ getEvents o s ↔ r ∈ s ∧ matchesFilter o r = true) ∧
    (matchesFilter o r = true ↔
      ((∀ v, o.source = some v → r.source = v) ∧
       (∀ v, o.type = some v → r.type = v) ∧
       (∀ v, o.startDate = some v → v ≤ r.timestamp) ∧
       (∀ v, o.endDate = some v → r.timestamp ≤ v) ∧
       (∀ ts, o.tags = some ts → ts ≠ [] → ∃ t ∈ ts, likeSub t r.tags = true))) := by
  constructor
  · intro s
    simp [getEvents, List.mem_filter]
  · rcases o with ⟨os, oty, osd, oed, otg⟩
    simp only [Option.some.injEq] at hso htyo hsd hed
    cases os with
    | none =>
      cases oty with
      | none => cases osd <;> cases oed <;> cases otg <;>
          simp_all [matchesFilter, whereConds, List.any_eq_true, List.length_pos]
      | some v2 => cases osd <;> cases oed <;> cases otg <;>
          simp_all [matchesFilter, whereConds, List.any_eq_true, List.length_pos]
    | some v1 =>
      cases oty with
      | none => cases osd <;> cases oed <;> cases otg <;>
          simp_all [matchesFilter, whereConds, List.any_eq_true, List.length_pos]
      | some v2 => cases osd <;> cases oed <;> cases otg <;>
          simp_all [matchesFilter, whereConds, List.any_eq_true, List.length_pos]

/-- The gym tags filter. -/
def oGym : EventFilter :=
  { source := none, type := none, startDate := none, endDate := none,
    tags := some ["gym"] }

/-- A record tagged `gymnastics` (serialized tags column). -/
def rGym : EventRow :=
  { id := "g1", timestamp := "2024-01-01T00:00:00Z", source := "test", type := "x.y",
    title := "Gym", metadata := "\x7b\x7d", linked_uris := "[]",
    tags := "[\"gymnastics\"]", mood := none, location := none, duration := none,
    created_at := "c", updated_at := "u" }

theorem getEvents_filter_semantics_witness :
    ((∀ s, rGym ∈ getEvents oGym s ↔ rGym ∈ s ∧ matchesFilter oGym rGym = true) ∧
     (matchesFilter oGym rGym = true ↔
       ((∀ v, oGym.source = some v → rGym.source = v) ∧
        (∀ v, oGym.type = some v → rGym.type = v) ∧
        (∀ v, oGym.startDate = some v → v ≤ rGym.timestamp) ∧
        (∀ v, oGym.endDate = some v → rGym.timestamp ≤ v) ∧
        (∀ ts, oGym.tags = some ts → ts ≠ [] →
          ∃ t ∈ ts, likeSub t rGym.tags = true)))) ∧
    matchesFilter oGym rGym = true :=
  ⟨getEvents_filter_semantics oGym rGym (by decide) (by decide) (by decide) (by decide),
   by decide⟩

theorem lookup_key_unique (l : List (String × PluginDir))
    (hnd : (l.map Prod.fst).Nodup) (q : String × PluginDir) (hq : q ∈ l) :
    List.find? (fun e => e.1 = q.1) l = some q := by
  induction l with
  | nil => cases hq
  | cons a tl ih =>
    rw [List.map_cons, List.nodup_cons] at hnd
    rcases List.mem_cons.mp hq with rfl | hqtl
    · exact List.find?_cons_of_pos _ (by simp)
    · have hane : ¬(a.1 = q.1) := by
        intro he
        exact hnd.1 (he ▸ List.mem_map_of_mem Prod.fst hqtl)
      rw [List.find?_cons_of_neg _ (by simpa using hane)]
      exact ih hnd.2 hqtl

theorem lookupDir_mem_unique (s : SysState) (hnd : (s.plugins.map Prod.fst).Nodup)
    (q : String × PluginDir) (hq : q ∈ s.plugins) (d : PluginDir)
    (hlk : lookupDir q.1 s = some d) : q.2 = d := by
  unfold lookupDir at hlk
  rw [lookup_key_unique s.plugins hnd q hq] at hlk
  simpa using hlk

theorem countLive_initStep_ne (st : SchedState) (a : String × PluginDir) (n : String)
    (h : ¬(a.1 = n)) : countLive n (initStep st a) = countLive n st := by
  unfold initStep
  cases hc : a.2.config with
  | none => rfl
  | some c =>
    dsimp only
    by_cases hcond : (jsTruthyOpt c.enabled && strTruthy c.schedule) = true
    · rw [if_pos hcond]
      exact countLive_start_ne n a.1 c st (fun e => h e.symm)
    · rw [if_neg hcond]

theorem countLive_foldl_ne (n : String) :
    ∀ (l : List (String × PluginDir)) (st : SchedState),
    (∀ e ∈ l, ¬(e.1 = n)) →
    countLive n (l.foldl initStep st) = countLive n st := by
  intro l
  induction l with
  | nil => intro st _; rfl
  | cons a tl ih =>
    intro st h
    rw [List.foldl_cons, ih _ (fun e he => h e (List.mem_cons_of_mem a he))]
    exact countLive_initStep_ne st a n (h a (List.mem_cons_self a tl))

theorem countLive_init_fold (q : String × PluginDir) :
    ∀ (l : List (String × PluginDir)) (st : SchedState),
    (l.map Prod.fst).Nodup → q ∈ l → countLive q.1 st = 0 →
    countLive q.1 (l.foldl initStep st) = if descWants q.2 then 1 else 0 := by
  intro l
  induction l with
  | nil => intro st _ hq _; cases hq
  | cons a tl ih =>
    intro st hnd hq hz
    rw [List.map_cons, List.nodup_cons] at hnd
    rw [List.foldl_cons]
    rcases List.mem_cons.mp hq with rfl | hqtl
    · have hrest : ∀ e ∈ tl, ¬(e.1 = q.1) := by
        intro e he heq
        exact hnd.1 (heq ▸ List.mem_map_of_mem Prod.fst he)
      rw [countLive_foldl_ne q.1 tl _ hrest]
      unfold initStep descWants
      cases hc : q.2.config with
      | none => simpa using hz
      | some c =>
        dsimp only
        by_cases hcond : (jsTruthyOpt c.enabled && strTruthy c.schedule) = true
        · rw [if_pos hcond, countLive_start, Bool.and_comm]
        · have hcf : (jsTruthyOpt c.enabled && strTruthy c.schedule) = false := by
            cases hx : jsTruthyOpt c.enabled && strTruthy c.schedule
            · rfl
            · exact absurd hx hcond
          rw [if_neg hcond, hcf]
          simpa using hz
    · have hane : ¬(a.1 = q.1) := by
        intro he
        exact hnd.1 (he ▸ List.mem_map_of_mem Prod.fst hqtl)
      apply ih _ hnd.2 hqtl
      rw [countLive_initStep_ne st a q.1 hane]
      exact hz

theorem inv_after_write (s : SysState) (hInv : triggerInvariant s) (id : String)
    (c1 : PluginConfigFile) (sched2 : SchedState)
    (hsame : ∀ n, ¬(n = id) → countLive n sched2 = countLive n s.sched)
    (htarget : countLive id sched2
      = if jsTruthyOpt c1.enabled && strTruthy c1.schedule then 1 else 0) :
    triggerInvariant { plugins := (writeCfg id c1 s).plugins, sched := sched2 } := by
  intro q hq
  obtain ⟨q0, hq0, rfl⟩ := List.mem_map.mp hq
  by_cases hkey : q0.1 = id
  · dsimp only
    rw [if_pos hkey]
    dsimp only
    rw [hkey, htarget]
    rfl
  · dsimp only
    rw [if_neg hkey]
    rw [hsame q0.1 hkey]
    exact hInv q0 hq0

/-- C2 (amended): the trigger invariant — a plugin holds an active trigger
exactly when its descriptor is enabled (truthy) with a present, nonempty
schedule — is re-established by enable, by disable, by startup
reconciliation from a cold scheduler, and by any config update whose merged
result is disabled or still carries a nonempty schedule. (A config update
that removes the schedule while leaving the plugin enabled takes neither
the restart nor the stop branch, so the stale trigger survives; that case
is excluded here and exhibited in the counterexample.) -/
theorem triggerInvariant_reestablished (id : String) (p : PluginConfigFile)
    (s : SysState) (hnd : (s.plugins.map Prod.fst).Nodup) :
    (triggerInvariant s → triggerInvariant (enableHandler id s).1) ∧
    (triggerInvariant s → triggerInvariant (disableHandler id s).1) ∧
    (triggerInvariant s →
      (∀ d c, lookupDir id s = some d → d.config = some c →
        strTruthy (assignCfg c p).schedule = true
          ∨ jsTruthyOpt (assignCfg c p).enabled = false) →
      triggerInvariant (configUpdateHandler id p s).1) ∧
    (s.sched.jobs = [] → triggerInvariant (initializeScheduledJobs s)) := by
  refine ⟨?_, ?_, ?_, ?_⟩
  · intro hInv
    unfold enableHandler
    cases hlk : lookupDir id s with
    | none => exact hInv
    | some d =>
      dsimp only
      cases hcfg : d.config with
      | none => exact hInv
      | some c =>
        dsimp only
        by_cases hsch : strTruthy c.schedule = true
        · rw [if_pos (by simp [hsch, jsTruthyOpt, jsTruthy])]
          dsimp only
          exact inv_after_write s hInv id _ _
            (fun n hn => countLive_start_ne n id _ _ hn)
            (by rw [countLive_start]
                simp [hsch, jsTruthyOpt, jsTruthy])
        · have hschf : strTruthy c.schedule = false := by
            cases hx : strTruthy c.schedule
            · rfl
            · exact absurd hx hsch
          rw [if_neg (by simp [hschf])]
          have hzero : countLive id s.sched = 0 := by
            cases hf : s.plugins.find? fun e => e.1 = id with
            | none =>
              unfold lookupDir at hlk
              rw [hf] at hlk
              cases hlk
            | some q0 =>
              unfold lookupDir at hlk
              rw [hf] at hlk
              have hq2 : q0.2 = d := by simpa using hlk
              have hmem := List.mem_of_find?_eq_some hf
              have hkey : q0.1 = id := by simpa using List.find?_some hf
              have hq := hInv q0 hmem
              rw [hkey, hq2] at hq
              rw [hq]
              unfold descWants
              rw [hcfg]
              simp [hschf]
          exact inv_after_write s hInv id _ s.sched (fun n hn => rfl)
            (by rw [hzero]
                simp [jsTruthyOpt, jsTruthy, hschf])
  · intro hInv
    unfold disableHandler
    cases hlk : lookupDir id s with
    | none => exact hInv
    | some d =>
      dsimp only
      cases hcfg : d.config with
      | none => exact hInv
      | some c =>
        dsimp only
        exact inv_after_write s hInv id _ _
          (fun n hn => countLive_stop_ne n id _ hn)
          (by rw [countLive_stop]
              simp [jsTruthyOpt, jsTruthy])
  · intro hInv hcond
    unfold configUpdateHandler
    cases hlk : lookupDir id s with
    | none => exact hInv
    | some d =>
      dsimp only
      cases hcfg : d.config with
      | none => exact hInv
      | some c =>
        dsimp only
        have hdisj := hcond d c hlk hcfg
        by_cases hb1 :
            (strTruthy (assignCfg c p).schedule && jsTruthyOpt (assignCfg c p).enabled) = true
        · rw [if_pos hb1]
          dsimp only
          refine inv_after_write s hInv id _ _ ?_ ?_
          · intro n hn
            rw [countLive_start_ne n id _ _ hn, countLive_stop_ne n id _ hn]
            rfl
          · rw [countLive_start, Bool.and_comm]
        · rw [if_neg hb1]
          by_cases hb2 : jsTruthyOpt (assignCfg c p).enabled = true
          · exfalso
            rcases hdisj with hds | hde
            · exact hb1 (by rw [hds, hb2]; rfl)
            · rw [hde] at hb2
              simp at hb2
          · have hb2f : jsTruthyOpt (assignCfg c p).enabled = false := by
              cases hx : jsTruthyOpt (assignCfg c p).enabled
              · rfl
              · exact absurd hx hb2
            rw [if_pos (by rw [hb2f]; rfl)]
            dsimp only
            refine inv_after_write s hInv id _ _
              (fun n hn => countLive_stop_ne n id _ hn) ?_
            rw [countLive_stop, hb2f]
            simp
  · intro hjobs
    unfold initializeScheduledJobs
    intro q hq
    dsimp only at hq ⊢
    have hz : countLive q.1 s.sched = 0 := by
      unfold countLive
      rw [hjobs]
      rfl
    exact countLive_init_fold q s.plugins s.sched hnd hq hz

/-- The installed descriptor of the counterexample plugin: enabled, with an
hourly cron schedule. -/
def cfgP : PluginConfigFile :=
  ⟨some "p", none, none, none, none, none, none,
   some "0 * * * *", some (Json.bool true), none, none⟩

/-- The counterexample plugin directory. -/
def dirP : PluginDir := ⟨some cfgP, true⟩

/-- A server state holding the one scheduled, enabled plugin `p` together
with its single live cron trigger. -/
def sP : SysState := ⟨[("p", dirP)], ⟨1, [("p", 0, "0 * * * *")]⟩⟩

/-- A config-update body that clears the schedule and touches nothing
else. -/
def patchP : PluginConfigFile :=
  ⟨none, none, none, none, none, none, none, some "", none, none, none⟩

/-- A config-update body that disables the plugin. -/
def patchD : PluginConfigFile :=
  ⟨none, none, none, none, none, none, none, none,
   some (Json.bool false), none, none⟩

/-- C2 counterexample: on state `sP` — one enabled plugin `p` with schedule
`0 * * * *` and exactly one live trigger, so the invariant holds — the
config update that clears the schedule succeeds and persists a descriptor
with a truthy `enabled` and an empty `schedule`, yet the old trigger stays
live: the handler's restart branch needs a truthy schedule and its stop
branch needs a falsy `enabled`, so neither runs, refuting the claim that a
config update removing the schedule leaves no active trigger. -/
theorem configUpdate_stale_trigger_cex :
    triggerInvariant sP ∧
    (configUpdateHandler "p" patchP sP).2 = .ok () ∧
    lookupDir "p" (configUpdateHandler "p" patchP sP).1 =
      some ⟨some (assignCfg cfgP patchP), true⟩ ∧
    jsTruthyOpt (assignCfg cfgP patchP).enabled = true ∧
    strTruthy (assignCfg cfgP patchP).schedule = false ∧
    countLive "p" (configUpdateHandler "p" patchP sP).1.sched = 1 ∧
    ¬ triggerInvariant (configUpdateHandler "p" patchP sP).1 := by
  refine ⟨by unfold triggerInvariant; decide, rfl, rfl, rfl, rfl, rfl,
    by unfold triggerInvariant; decide⟩

/-- Witness for the amended C2 theorem: on the concrete state `sP` (whose
plugin names are nodup and where the invariant holds), a config update that
disables plugin `p` re-establishes the trigger invariant. -/
theorem triggerInvariant_reestablished_witness :
    (sP.plugins.map Prod.fst).Nodup ∧
    triggerInvariant (configUpdateHandler "p" patchD sP).1 :=
  ⟨by decide,
   (triggerInvariant_reestablished "p" patchD sP (by decide)).2.2.1
     (by unfold triggerInvariant; decide)
     (fun d c hd hc => Or.inr rfl)⟩

end LifeOS
